import Mathlib

/-
Verification development for the NodeFlow dataflow engine
(NodeFlowCore.hpp / NodeFlowCore.cpp).

The engine is embedded shallowly: the C++ `std::variant<int,float,double,
std::string>` value domain becomes the inductive `Val`; machine floats are
carried as exact rationals (the claims under study are stated "up to the
defined floating-point coercion semantics", and every concrete scenario uses
small integers, where float arithmetic is exact); C++ `int` casts wrap via
`wrap32`; float-to-int conversion truncates toward zero.  `std::unordered_map`
cells are association lists where an insertion shadows older entries, so a
lookup returns the most recent write, and a missing key reads the
default-constructed value, matching `operator[]`.
-/

namespace NodeFlow

/- The Batteries rational-number operations are `irreducible` by default;
the concrete scenarios below are evaluated by `decide`, which needs them to
unfold. -/
attribute [local semireducible] Rat.add Rat.sub Rat.mul Rat.inv

/-- Tagged scalar carried on every port: `std::variant<int, float, double,
std::string>`.  The `f` and `d` payloads are the exact rational value of the
float.  The variant's default constructor yields `int 0`, hence `Val.i 0`
is the "default" value below. -/
inductive Val where
  | i (n : Int)
  | f (q : Rat)
  | d (q : Rat)
  | s (t : String)
deriving DecidableEq, Repr

/-- Truncation toward zero, the semantics of C++ float-to-integer casts. -/
def ratTrunc (q : Rat) : Int :=
  if 0 ≤ q then ⌊q⌋ else ⌈q⌉

/-- Wrap-around of a wide integer to 32-bit `int`, the effect of the
`(int)sum` casts in the Add node (sum is accumulated in `long long`). -/
def wrap32 (x : Int) : Int :=
  (x + 2 ^ 31) % 2 ^ 32 - 2 ^ 31

/-- Numeric reading of a variant, with `0` for the string alternative: the
pattern `holds_alternative<double> / <float> / <int>` with a `0.0` fallback
that recurs at every numeric read site of NodeFlowCore.cpp. -/
def valToRat : Val → Rat
  | .i n => (n : Rat)
  | .f q => q
  | .d q => q
  | .s _ => 0

/-- Write a number in a declared data type: the `bt == "int"` /
`bt == "double"` / otherwise-float branch pattern used when the engine and
the generated library store a value in a port's declared dtype. -/
def coerceNum (dtype : String) (q : Rat) : Val :=
  if dtype == "int" then .i (ratTrunc q)
  else if dtype == "double" then .d q
  else .f q

/-- Inequality test the scheduler uses on the primary output
(NodeFlowCore.cpp:522-528): differing variant alternatives always count as
changed; equal alternatives compare with the payload `!=`. -/
def valNe (a b : Val) : Bool :=
  match a, b with
  | .i x, .i y => x != y
  | .f x, .f y => x != y
  | .d x, .d y => x != y
  | .s x, .s y => x != y
  | _, _ => true

/-! ## Graph model (NodeFlowCore.hpp) -/

/-- A port of the in-memory graph (`struct Port`); `value` is the cached
per-node copy of the port's current value.  The `type` field ("input" /
"output") is implied by the containing list and not repeated here. -/
structure Port where
  id : String
  dataType : String
  value : Val
deriving DecidableEq, Repr

/-- A connection between ports (`struct Connection`). -/
structure Connection where
  fromNode : String
  fromPort : String
  toNode : String
  toPort : String
deriving DecidableEq, Repr

/-- A node (`struct Node`); parameters are an insertion-shadowing
association list standing for the `unordered_map`. -/
structure Node where
  id : String
  type : String
  inputs : List Port
  outputs : List Port
  params : List (String × Val)
deriving DecidableEq, Repr

/-- Port descriptor (`struct PortDesc`). -/
structure PortDesc where
  handle : Nat
  nodeId : String
  portId : String
  direction : String
  dataType : String
deriving DecidableEq, Repr

/-- A parsed graph description: the already-parsed JSON document consumed by
`FlowEngine::loadFromJson`.  Parameter values carry the JSON type: integers
as `Val.i`, floating numbers as `Val.d` (the loader stores doubles),
strings as `Val.s`, booleans as `Val.i 0/1`. -/
structure PortSpec where
  id : String
  dataType : String
deriving DecidableEq, Repr

structure NodeSpec where
  id : String
  type : String
  inputs : List PortSpec
  outputs : List PortSpec
  params : List (String × Val)
deriving DecidableEq, Repr

structure Description where
  nodes : List NodeSpec
  connections : List Connection
deriving DecidableEq, Repr

/-- The engine state (`class FlowEngine`).  Arenas are handle-indexed lists;
maps are shadowing association lists; `Generation` is `Nat` (the u64 never
overflows in any reachable scenario considered). -/
structure Engine where
  nodes : List Node
  connections : List Connection
  executionOrder : List String
  portDescs : List PortDesc
  portKeyToHandle : List (String × Nat)
  portValues : List Val
  portChangedStamp : List Nat
  outToIn : List (List Nat)
  dependents : List (String × List String)
  topoIndex : List (String × Nat)
  nodeIndex : List (String × Nat)
  readyQueue : List String
  readyStamp : List (String × Nat)
  outputChangedStamp : List (String × Nat)
  evalGeneration : Nat
  snapshotGeneration : Nat
  coldStart : Bool
  timerAccumMs : List Rat
  counterLastTick : List Int
  counterValue : List Rat
deriving DecidableEq, Repr

/-- A freshly constructed engine: `FlowEngine() = default` with the member
initializers of NodeFlowCore.hpp (`evalGeneration = 1`, `coldStart = true`). -/
def emptyEngine : Engine :=
  { nodes := [], connections := [], executionOrder := [], portDescs := []
    portKeyToHandle := [], portValues := [], portChangedStamp := []
    outToIn := [], dependents := [], topoIndex := [], nodeIndex := []
    readyQueue := [], readyStamp := [], outputChangedStamp := []
    evalGeneration := 1, snapshotGeneration := 0, coldStart := true
    timerAccumMs := [], counterLastTick := [], counterValue := [] }

/-- `FlowEngine::getPortHandle`: look up `nodeId:portId:direction` in the
interned key map; `none` models the C++ return value `-1`. -/
def getPortHandle (e : Engine) (nodeId portId direction : String) : Option Nat :=
  (e.portKeyToHandle.find? (fun p => p.1 == nodeId ++ ":" ++ portId ++ ":" ++ direction)).map (·.2)

/-- Append an element to the list stored under a key of a map of vectors
(`graph[from].push_back(to)`), keeping first-insertion key order. -/
def pushMulti (m : List (String × List String)) (k v : String) : List (String × List String) :=
  match m with
  | [] => [(k, [v])]
  | (k0, l0) :: rest =>
      if k0 == k then (k0, l0 ++ [v]) :: rest else (k0, l0) :: pushMulti rest k v

/-- Lookup in an association list (first match = most recent shadowing
insertion where entries are consed). -/
def lookupA {β : Type} (m : List (String × β)) (k : String) : Option β :=
  (m.find? (fun p => p.1 == k)).map (·.2)

/-! ## Load path (`FlowEngine::loadFromJson`, NodeFlowCore.cpp:151-272) -/

inductive LoadErr where
  /-- `throw std::runtime_error("Type mismatch in connection")` -/
  | typeMismatch
  /-- `throw std::runtime_error("Cycle detected in flow graph")` -/
  | cycleDetected
  /-- A connection referencing an unknown node or port dereferences an end
  iterator in the C++ (undefined behavior); modelled as a distinct error. -/
  | badReference
deriving DecidableEq, Repr

def isNumericT (t : String) : Bool :=
  t == "int" || t == "float" || t == "double"

/-- Intern one declared port: the handle is the current descriptor count,
the key-map entry and a zero stamp are appended. -/
def internPort (nodeId direction : String) (acc : Engine) (p : PortSpec) : Engine :=
  let h := acc.portDescs.length
  { acc with
    portKeyToHandle := (nodeId ++ ":" ++ p.id ++ ":" ++ direction, h) :: acc.portKeyToHandle
    portDescs := acc.portDescs ++
      [{ handle := h, nodeId := nodeId, portId := p.id, direction := direction, dataType := p.dataType }]
    portChangedStamp := acc.portChangedStamp ++ [0] }

/-- Install one parsed node: ports start at `Value{0.0f}`; input ports are
interned in declared order before output ports. -/
def loadOneNode (e : Engine) (ns : NodeSpec) : Engine :=
  let node : Node :=
    { id := ns.id, type := ns.type
      inputs := ns.inputs.map (fun p => { id := p.id, dataType := p.dataType, value := .f 0 })
      outputs := ns.outputs.map (fun p => { id := p.id, dataType := p.dataType, value := .f 0 })
      params := ns.params }
  let e1 := ns.inputs.foldl (internPort ns.id "input") e
  let e2 := ns.outputs.foldl (internPort ns.id "output") e1
  { e2 with nodes := e2.nodes ++ [node] }

/-- Validate and record one connection (NodeFlowCore.cpp:228-249): the node
and port lookups dereference `find_if` results without an end check, so a
missing endpoint is undefined behavior (`badReference`); numeric-to-numeric
pairs always pass; otherwise exact type equality is required. -/
def loadOneConnection (e : Engine) (c : Connection) : Engine × Option LoadErr :=
  match e.nodes.find? (fun n => n.id == c.fromNode), e.nodes.find? (fun n => n.id == c.toNode) with
  | some fn, some tn =>
      match fn.outputs.find? (fun p => p.id == c.fromPort), tn.inputs.find? (fun p => p.id == c.toPort) with
      | some fp, some tp =>
          if !(isNumericT fp.dataType && isNumericT tp.dataType) && fp.dataType != tp.dataType then
            (e, some .typeMismatch)
          else
            ({ e with connections := e.connections ++ [c] }, none)
      | _, _ => (e, some .badReference)
  | _, _ => (e, some .badReference)

def loadConnections (e : Engine) : List Connection → Engine × Option LoadErr
  | [] => (e, none)
  | c :: rest =>
      match loadOneConnection e c with
      | (e1, none) => loadConnections e1 rest
      | (e1, some err) => (e1, some err)

/-- One step of Kahn's algorithm queue drain (`while (!queue.empty())`). -/
def kahnLoop (fuel : Nat) (graph : List (String × List String))
    (inDegree : List (String × Int)) (queue : List String)
    (order : List String) : List String :=
  match fuel with
  | 0 => order
  | fuel + 1 =>
      match queue with
      | [] => order
      | current :: rest =>
          let succs := (lookupA graph current).getD []
          let upd := succs.foldl
            (fun (st : List (String × Int) × List String) nxt =>
              let dNew := (lookupA st.1 nxt).getD 0 - 1
              let deg := (nxt, dNew) :: st.1
              if dNew == 0 then (deg, st.2 ++ [nxt]) else (deg, st.2))
            (inDegree, rest)
          kahnLoop fuel graph upd.1 upd.2 (order ++ [current])

/-- `FlowEngine::computeExecutionOrder` (NodeFlowCore.cpp:279-326): Kahn's
algorithm over node identifiers, then topo-index / node-index / dependents
tables and zeroed per-node Timer and Counter state.  On an incomplete order
the C++ throws before building those tables, leaving the partial
`executionOrder` in place. -/
def computeExecutionOrder (e : Engine) : Engine × Option LoadErr :=
  let inDeg0 : List (String × Int) := e.nodes.map (fun n => (n.id, 0))
  let graphAndDeg := e.connections.foldl
    (fun (st : List (String × List String) × List (String × Int)) c =>
      (pushMulti st.1 c.fromNode c.toNode,
       (c.toNode, (lookupA st.2 c.toNode).getD 0 + 1) :: st.2))
    ([], inDeg0)
  let graph := graphAndDeg.1
  let inDegree := graphAndDeg.2
  let queue0 := (e.nodes.filter (fun n => (lookupA inDegree n.id).getD 0 == 0)).map (·.id)
  let order := kahnLoop (2 * e.nodes.length + e.connections.length + 2) graph inDegree queue0 []
  if order.length != e.nodes.length then
    ({ e with executionOrder := order }, some .cycleDetected)
  else
    let ti := (order.enum.map (fun p => (p.2, p.1))).foldl (fun acc p => p :: acc) []
    let ni := (e.nodes.enum.map (fun p => (p.2.id, p.1))).foldl (fun acc p => p :: acc) []
    (({ e with
        executionOrder := order
        topoIndex := ti
        nodeIndex := ni
        dependents := graph
        timerAccumMs := List.replicate e.nodes.length 0
        counterLastTick := List.replicate e.nodes.length 0
        counterValue := List.replicate e.nodes.length 0 }), none)

/-- Rebuild the output-to-input handle adjacency from the recorded
connections (NodeFlowCore.cpp:253-271). -/
def rebuildAdjacency (e : Engine) : Engine :=
  let base := { e with outToIn := List.replicate e.portDescs.length [] }
  e.connections.foldl
    (fun acc c =>
      match getPortHandle acc c.fromNode c.fromPort "output",
            getPortHandle acc c.toNode c.toPort "input" with
      | some hOut, some hIn =>
          if hOut < acc.outToIn.length then
            { acc with outToIn := acc.outToIn.set hOut ((acc.outToIn.getD hOut []) ++ [hIn]) }
          else acc
      | _, _ => acc)
    base

/-- `FlowEngine::loadFromJson`.  The previous graph's tables are cleared
up front; nodes are installed in declaration order with input-port handles
before output-port handles; the arenas are sized to the port count (the
value arena default-constructs to the variant's first alternative, `int 0`);
connections are validated and recorded; the topological order and adjacency
tables are computed last.  A thrown load error leaves whatever had been
built so far — there is no rollback.  Fields the C++ does not clear
(executionOrder, scheduling tables, generations, cold-start flag, per-node
state) keep their previous values until recomputed. -/
def loadFromJson (e : Engine) (d : Description) : Engine × Option LoadErr :=
  let e0 := { e with
    nodes := [], connections := [], portDescs := [], portKeyToHandle := []
    portChangedStamp := [], portValues := [], outToIn := [] }
  let e1 := d.nodes.foldl loadOneNode e0
  let e2 := { e1 with
    portValues := List.replicate e1.portDescs.length (.i 0)
    outToIn := List.replicate e1.portDescs.length [] }
  match loadConnections e2 d.connections with
  | (e3, some err) => (e3, some err)
  | (e3, none) =>
      match computeExecutionOrder e3 with
      | (e4, some err) => (e4, some err)
      | (e4, none) => (rebuildAdjacency e4, none)

/-! ## Scheduler and evaluation (`FlowEngine::execute`, NodeFlowCore.cpp:330-555) -/

/-- Stable-ordering comparator of the ready queue (NodeFlowCore.cpp:625-630):
topological index (default 0 when absent), ties broken by node identifier. -/
def queueLt (ti : List (String × Nat)) (a b : String) : Bool :=
  let ia := (lookupA ti a).getD 0
  let ib := (lookupA ti b).getD 0
  if ia != ib then decide (ia < ib) else decide (a < b)

/-- Result of `push_back` followed by `std::stable_sort` on a queue that is
already sorted: the new element settles after every element not greater
than it. -/
def insertSorted (ti : List (String × Nat)) : List String → String → List String
  | [], x => [x]
  | h :: t, x => if queueLt ti x h then x :: h :: t else h :: insertSorted ti t x

/-- `FlowEngine::enqueueNode`: duplicate suppression by per-node generation
stamp, then insertion keeping the queue ordered. -/
def enqueueNode (e : Engine) (id : String) : Engine :=
  if (lookupA e.readyStamp id).getD 0 == e.evalGeneration then e
  else
    { e with
      readyStamp := (id, e.evalGeneration) :: e.readyStamp
      readyQueue := insertSorted e.topoIndex e.readyQueue id }

/-- `FlowEngine::enqueueDependents`. -/
def enqueueDependents (e : Engine) (id : String) : Engine :=
  ((lookupA e.dependents id).getD []).foldl enqueueNode e

/-- Propagate value `v` from output handle `h` to every connected input
handle (`for (int hIn : outToIn[hOut]) portValues[hIn] = v`). -/
def propagateRaw (e : Engine) (h : Nat) (v : Val) : Engine :=
  (e.outToIn.getD h []).foldl
    (fun (acc : Engine) (hIn : Nat) =>
      if hIn < acc.portValues.length then
        { acc with portValues := acc.portValues.set hIn v }
      else acc)
    e

/-- Write value `v` to output handle `h`: store in the arena, stamp the port
with the current generation, and propagate `v` to every connected input
handle.  This is the guarded triple that recurs in every node branch of
`processNode`. -/
def writePort (e : Engine) (h : Nat) (v : Val) : Engine :=
  if h < e.portValues.length then
    let e1 := { e with portValues := e.portValues.set h v }
    let e2 :=
      if h < e1.portChangedStamp.length then
        { e1 with portChangedStamp := e1.portChangedStamp.set h e1.evalGeneration }
      else e1
    propagateRaw e2 h v
  else e

/-- Replace the first node whose id matches (the `std::find_if` iterator the
C++ mutates through). -/
def updateFirstNode : List Node → String → Node → List Node
  | [], _, _ => []
  | n :: rest, id, n1 =>
      if n.id == id then n1 :: rest else n :: updateFirstNode rest id n1

/-- Add-node summation in the compute dtype (NodeFlowCore.cpp:411-471):
inputs are read from the arena through their handles; in the `int` branch
float and double payloads are cast with truncation and the `long long`
accumulator is finally narrowed to `int`; the float and double branches sum
exactly (f32 and f64 arithmetic carried as rationals). -/
def addSum (e : Engine) (n : Node) (dtype : String) : Val :=
  if dtype == "int" then
    let s := n.inputs.foldl
      (fun (acc : Int) ip =>
        match getPortHandle e n.id ip.id "input" with
        | some hIn =>
            if hIn < e.portValues.length then
              match e.portValues.getD hIn (.i 0) with
              | .i k => acc + k
              | .f q => acc + ratTrunc q
              | .d q => acc + ratTrunc q
              | .s _ => acc
            else acc
        | none => acc)
      0
    .i (wrap32 s)
  else
    let s := n.inputs.foldl
      (fun (acc : Rat) ip =>
        match getPortHandle e n.id ip.id "input" with
        | some hIn =>
            if hIn < e.portValues.length then
              match e.portValues.getD hIn (.i 0) with
              | .i k => acc + (k : Rat)
              | .f q => acc + q
              | .d q => acc + q
              | .s _ => acc
            else acc
        | none => acc)
      0
    if dtype == "double" then .d s else .f s

/-- The rising-edge step of the Counter node (NodeFlowCore.cpp:490-493):
new previous-tick state and new running total. -/
def counterStep (tickNow : Int) (last : Int) (cnt : Rat) : Int × Rat :=
  (tickNow, if tickNow == 1 && last == 0 then cnt + 1 else cnt)

/-- The high/low threshold of the Counter (strictly greater than 0.5). -/
def counterHigh (dv : Rat) : Bool :=
  decide (dv > 1 / 2)

/-- Write each output port of node `nid` through `writePort`, the value of
each port given by `vOf` (the per-output loops shared by every handled
branch of `processNode`). -/
def writeNodeOutputs (nid : String) (vOf : Port → Val) (e : Engine) (outs : List Port) : Engine :=
  outs.foldl
    (fun acc op =>
      match getPortHandle acc nid op.id "output" with
      | some h => writePort acc h (vOf op)
      | none => acc)
    e

/-- Sampled state of a Counter node's first input (NodeFlowCore.cpp:477-488):
1 when the arena value read through the input handle is strictly above 0.5,
else 0. -/
def counterTickNow (e : Engine) (n : Node) : Int :=
  match n.inputs.head? with
  | some ip =>
      match getPortHandle e n.id ip.id "input" with
      | some hIn =>
          if hIn < e.portValues.length then
            if counterHigh (valToRat (e.portValues.getD hIn (.i 0))) then 1 else 0
          else 0
      | none => 0
  | none => 0

/-- A node with its cached output values rewritten by `f`. -/
def updatedOutputsNode (n : Node) (f : Port → Val) : Node :=
  { n with outputs := n.outputs.map (fun op => { op with value := f op }) }

/-- Install the updated node over the `find_if` iterator, then write its
outputs through the arena (the mutate-then-write pattern of every handled
branch of `processNode`). -/
def applyNodeWrite (e : Engine) (n n1 : Node) (vOf : Port → Val) : Engine × Node :=
  (writeNodeOutputs n.id vOf { e with nodes := updateFirstNode e.nodes n.id n1 } n1.outputs, n1)

/-- Kind-specific evaluation of one node (the body of `processNode` in
`FlowEngine::execute` before change detection).  Returns the updated engine
together with the updated node (the C++ mutates the node in place through
the `find_if` iterator).  Unknown kinds — including Timer, which has no
branch in `processNode` — are a no-op. -/
def evalNodeKind (e : Engine) (n : Node) : Engine × Node :=
  if n.type == "Value" then
    let v := (lookupA n.params "value").getD (.f 0)
    applyNodeWrite e n (updatedOutputsNode n (fun _ => v)) (fun _ => v)
  else if n.type == "DeviceTrigger" then
    match lookupA n.params "value" with
    | some v => applyNodeWrite e n (updatedOutputsNode n (fun _ => v)) Port.value
    | none => applyNodeWrite e n n Port.value
  else if n.type == "Add" then
    if n.outputs.isEmpty then (e, n)
    else
      let dtype := (n.outputs.headD { id := "", dataType := "float", value := .f 0 }).dataType
      let v := addSum e n dtype
      applyNodeWrite e n (updatedOutputsNode n (fun _ => v)) (fun _ => v)
  else if n.type == "Counter" then
    match lookupA e.nodeIndex n.id with
    | none => (e, n)
    | some idx =>
        let st := counterStep (counterTickNow e n) (e.counterLastTick.getD idx 0) (e.counterValue.getD idx 0)
        applyNodeWrite
          { e with
              counterLastTick := e.counterLastTick.set idx st.1
              counterValue := e.counterValue.set idx st.2 }
          n (updatedOutputsNode n (fun op => coerceNum op.dataType st.2))
          (fun op => coerceNum op.dataType st.2)
  else (e, n)

/-- Change detection on the primary output (NodeFlowCore.cpp:518-530):
compare the first output's cached value before and after evaluation. -/
def primaryChanged (n0 n1 : Node) : Bool :=
  match n0.outputs.head?, n1.outputs.head? with
  | some p0, some p1 => valNe p0.value p1.value
  | _, _ => false

/-- Process a single node by identifier: look it up, evaluate its kind,
then stamp the node-level change marker and enqueue its forward dependents
exactly when the primary output changed. -/
def processNode (e : Engine) (id : String) : Engine :=
  match e.nodes.find? (fun n => n.id == id) with
  | none => e
  | some n =>
      let r := evalNodeKind e n
      if primaryChanged n r.2 then
        enqueueDependents
          { r.1 with outputChangedStamp := (n.id, r.1.evalGeneration) :: r.1.outputChangedStamp }
          n.id
      else r.1

/-- Cold-start seeding (NodeFlowCore.cpp:337-354): copy every node's cached
output values into the arena, then propagate each output handle's arena
value to its connected input handles, in descriptor order. -/
def seedColdStart (e : Engine) : Engine :=
  let e1 := e.nodes.foldl
    (fun acc n =>
      n.outputs.foldl
        (fun acc2 op =>
          match getPortHandle acc2 n.id op.id "output" with
          | some h =>
              if h < acc2.portValues.length then
                { acc2 with portValues := acc2.portValues.set h op.value }
              else acc2
          | none => acc2)
        acc)
    e
  e1.portDescs.foldl
    (fun acc pd =>
      if pd.direction == "output" then
        ((acc.outToIn.getD pd.handle []).foldl
          (fun (a2 : Engine) (hIn : Nat) =>
            if hIn < a2.portValues.length then
              { a2 with portValues := a2.portValues.set hIn (a2.portValues.getD pd.handle (.i 0)) }
            else a2)
          acc)
      else acc)
    e1

/-- Steady-state drain of the ready queue.  Each node is stamped at most
once per generation, so the number of pops is bounded by the initial queue
plus the node count; the fuel passed by `execute` always suffices. -/
def drainQueue : Nat → Engine → Engine
  | 0, e => e
  | fuel + 1, e =>
      match e.readyQueue with
      | [] => e
      | id :: rest => drainQueue fuel (processNode { e with readyQueue := rest } id)

/-- `FlowEngine::execute`: bump the generation, then either the cold-start
full topological sweep (with arena seeding) or the dirty-driven queue
drain. -/
def execute (e : Engine) : Engine :=
  let e0 := { e with evalGeneration := e.evalGeneration + 1 }
  if e0.coldStart then
    let e1 := seedColdStart e0
    let e2 := e1.executionOrder.foldl processNode e1
    { e2 with readyQueue := [], coldStart := false }
  else
    drainQueue (e0.readyQueue.length + e0.nodes.length + 1) e0

/-! ## Time advance (`FlowEngine::tick`, NodeFlowCore.cpp:558-618) -/

/-- Read the `interval_ms` parameter as a double (int, float and double
payloads accepted; anything else leaves the interval at 0). -/
def timerInterval (n : Node) : Rat :=
  match lookupA n.params "interval_ms" with
  | some (.i k) => (k : Rat)
  | some (.f q) => q
  | some (.d q) => q
  | _ => 0

def dummyNode : Node :=
  { id := "", type := "", inputs := [], outputs := [], params := [] }

/-- Replace the node at a position (the C++ mutates `nodes[i]` in place). -/
def setNodeAt (ns : List Node) (i : Nat) (n : Node) : List Node :=
  ns.set i n

/-- The loop body of `FlowEngine::tick` for node position `i`: skip
non-Timer nodes, nodes without outputs and non-positive intervals;
accumulate `dt`; on reaching the interval subtract it once, emit the pulse
(value one in the declared dtype) with stamp `generation + 1` and propagate
the float literal `1.0f` downstream; otherwise hold the output at zero and,
only on a high-to-low transition, stamp, propagate `0.0f` and enqueue. -/
def tickNode (dt : Rat) (e : Engine) (i : Nat) : Engine :=
  let n := e.nodes.getD i dummyNode
  if n.type != "Timer" || n.outputs.isEmpty then e
  else
    let interval := timerInterval n
    if interval ≤ 0 then e
    else
      let op0 := n.outputs.headD { id := "", dataType := "float", value := .f 0 }
      let acc := e.timerAccumMs.getD i 0 + dt
      if acc ≥ interval then
        let e1 := { e with timerAccumMs := e.timerAccumMs.set i (acc - interval) }
        let pulse := coerceNum op0.dataType 1
        let e2 :=
          match getPortHandle e1 n.id op0.id "output" with
          | some h =>
              if h < e1.portValues.length then
                let ea := { e1 with
                  portValues := e1.portValues.set h pulse
                  nodes := setNodeAt e1.nodes i
                    { n with outputs := { op0 with value := pulse } :: n.outputs.tail } }
                let eb :=
                  if h < ea.portChangedStamp.length then
                    { ea with portChangedStamp := ea.portChangedStamp.set h (ea.evalGeneration + 1) }
                  else ea
                propagateRaw eb h (.f 1)
              else e1
          | none => e1
        let e3 := { e2 with
          outputChangedStamp := (n.id, e2.evalGeneration + 1) :: e2.outputChangedStamp }
        enqueueDependents e3 n.id
      else
        let e1 := { e with timerAccumMs := e.timerAccumMs.set i acc }
        match getPortHandle e1 n.id op0.id "output" with
        | some h =>
            if h < e1.portValues.length then
              let prev := valToRat (e1.portValues.getD h (.i 0))
              let zero := coerceNum op0.dataType 0
              let ea := { e1 with
                portValues := e1.portValues.set h zero
                nodes := setNodeAt e1.nodes i
                  { n with outputs := { op0 with value := zero } :: n.outputs.tail } }
              if prev > 1 / 2 then
                let eb :=
                  if h < ea.portChangedStamp.length then
                    { ea with portChangedStamp := ea.portChangedStamp.set h (ea.evalGeneration + 1) }
                  else ea
                let ec := propagateRaw eb h (.f 0)
                enqueueDependents ec n.id
              else ea
            else e1
        | none => e1

/-- `FlowEngine::tick`: non-positive dt returns immediately; otherwise every
node position is visited in order. -/
def tick (e : Engine) (dt : Rat) : Engine :=
  if dt ≤ 0 then e
  else (List.range e.nodes.length).foldl (tickNode dt) e

/-! ## External input (`FlowEngine::setNodeValue`, NodeFlowCore.cpp:977-1014) -/

/-- The arena-write loop body of `setNodeValue` (NodeFlowCore.cpp:992-1001):
store the float `v` in the output's arena slot, stamp it with the current
generation, and propagate the float `v` to every connected input slot. -/
def setPortTo (nodeId : String) (v : Rat) (acc : Engine) (op : Port) : Engine :=
  match getPortHandle acc nodeId op.id "output" with
  | some h =>
      if h < acc.portValues.length then
        let ea := { acc with portValues := acc.portValues.set h (.f v) }
        let eb :=
          if h < ea.portChangedStamp.length then
            { ea with portChangedStamp := ea.portChangedStamp.set h ea.evalGeneration }
          else ea
        propagateRaw eb h (.f v)
      else acc
  | none => acc

/-- The change-branch restamp loop body of `setNodeValue`
(NodeFlowCore.cpp:1005-1009). -/
def stampPort (nodeId : String) (acc : Engine) (op : Port) : Engine :=
  match getPortHandle acc nodeId op.id "output" with
  | some h =>
      if h < acc.portChangedStamp.length then
        { acc with portChangedStamp := acc.portChangedStamp.set h acc.evalGeneration }
      else acc
  | none => acc

/-- `FlowEngine::setNodeValue(nodeId, float value)`: the argument is an f32
(narrowing from wider types happens at the C++ call boundary).  The previous
primary-output value is read as float; the `value` parameter and every
cached output become the float `v`; the arena slots of all outputs and of
all downstream inputs are overwritten with the float `v` and stamped with
the current generation regardless of change; only on a value change is the
node-level stamp set and are dependents enqueued. -/
def setNodeValue (e : Engine) (nodeId : String) (v : Rat) : Engine :=
  match e.nodes.find? (fun n => n.id == nodeId) with
  | none => e
  | some n =>
      let prev : Rat :=
        match n.outputs.head? with
        | some op => valToRat op.value
        | none => 0
      let changed := prev != v
      let n1 := { n with
        params := ("value", Val.f v) :: n.params
        outputs := n.outputs.map (fun op => { op with value := .f v }) }
      let e1 := { e with nodes := updateFirstNode e.nodes nodeId n1 }
      let e2 := n1.outputs.foldl (setPortTo nodeId v) e1
      if changed then
        let e3 := { e2 with
          outputChangedStamp := (nodeId, e2.evalGeneration) :: e2.outputChangedStamp }
        let e4 := n1.outputs.foldl (stampPort nodeId) e3
        enqueueDependents e4 nodeId
      else e2

/-! ## Observation (`getPortDeltasChangedSince`, `getOutputs`) -/

/-- `FlowEngine::getPortDeltasChangedSince` (NodeFlowCore.cpp:666-687): walk
the port descriptors in order; keep output descriptors whose stamp exceeds
the watermark; report the cached value of the matching node output. -/
def deltaEntry (e : Engine) (w : Nat) (pd : PortDesc) : Option (String × String × Val) :=
  if pd.direction == "output" && decide (pd.handle < e.portChangedStamp.length)
      && decide (e.portChangedStamp.getD pd.handle 0 > w) then
    match e.nodes.find? (fun n => n.id == pd.nodeId) with
    | some n =>
        match n.outputs.find? (fun op => op.id == pd.portId) with
        | some op => some (pd.nodeId, pd.portId, op.value)
        | none => none
    | none => none
  else none

def getPortDeltasChangedSince (e : Engine) (w : Nat) : List (String × String × Val) :=
  e.portDescs.filterMap (deltaEntry e w)

/-- `FlowEngine::getOutputs`: every node's cached output values. -/
def getOutputs (e : Engine) : List (String × List Val) :=
  e.nodes.map (fun n => (n.id, n.outputs.map (·.value)))

/-! ## The generated AOT step library
(`FlowEngine::generateStepLibrary`, NodeFlowCore.cpp:1024-1266)

The generator emits C source specialized to the loaded graph.  The
definitions below give the semantics of that generated program: a fixed
`Inputs` record (one field per DeviceTrigger node), an `Outputs` record (one
field per sink node), and a `State` record (accumulator and pulse per
Timer, previous-edge and running total per Counter), all modelled as
association lists keyed by node identifier. -/

/-- Shadowing insertion into an association list. -/
def setA {β : Type} (m : List (String × β)) (k : String) (v : β) : List (String × β) :=
  (k, v) :: m

def timerNodesOf (e : Engine) : List Node :=
  e.nodes.filter (fun n => n.type == "Timer")

def counterNodesOf (e : Engine) : List Node :=
  e.nodes.filter (fun n => n.type == "Counter")

def inputNodesOf (e : Engine) : List Node :=
  e.nodes.filter (fun n => n.type == "DeviceTrigger" && !n.outputs.isEmpty)

def isSinkNode (e : Engine) (n : Node) : Bool :=
  (e.connections.find? (fun c => c.fromNode == n.id)).isNone

def sinkNodesOf (e : Engine) : List Node :=
  let sinks := e.nodes.filter (fun n => isSinkNode e n && !n.outputs.isEmpty)
  if sinks.isEmpty then e.nodes.filter (fun n => !n.outputs.isEmpty) else sinks

/-- Compute type of a node: the declared type of its first output (the
generator dereferences `outputs[0]`; the default covers the degenerate
no-output case where the generated source would not compile). -/
def computeType (n : Node) : String :=
  (n.outputs.headD { id := "", dataType := "float", value := .f 0 }).dataType

/-- The `value` parameter read as a C `double` (generator code baking
constants for Value nodes). -/
def paramValueAsDouble (n : Node) : Rat :=
  match lookupA n.params "value" with
  | some (.i k) => (k : Rat)
  | some (.f q) => q
  | some (.d q) => q
  | _ => 0

/-- Source node feeding a Counter's first input, resolved at generation
time (`counterSrc` in the generator): the first connection into that
input. -/
def counterSrcOf (e : Engine) (n : Node) : Option String :=
  match n.inputs.head? with
  | none => none
  | some ip =>
      (e.connections.find? (fun c => c.toNode == n.id && c.toPort == ip.id)).map (·.fromNode)

/-- The generated `NodeFlowState` record. -/
structure AotState where
  acc : List (String × Rat)
  tout : List (String × Val)
  last : List (String × Int)
  cnt : List (String × Rat)
deriving DecidableEq, Repr

/-- `nodeflow_init` / `nodeflow_reset`: zero every state field (the pulse
field is assigned `0.0f`, converted to the field's compute type). -/
def aotInit (e : Engine) : AotState :=
  { acc := (timerNodesOf e).map (fun n => (n.id, 0))
    tout := (timerNodesOf e).map (fun n => (n.id, coerceNum (computeType n) 0))
    last := (counterNodesOf e).map (fun n => (n.id, 0))
    cnt := (counterNodesOf e).map (fun n => (n.id, 0)) }

/-- `nodeflow_tick(dt_ms, ...)` of the generated library: every Timer's
pulse is reset to zero, then the accumulator unconditionally advances by
`dt_ms` (the generated code has no non-positive-dt guard) and fires when the
baked interval is reached; then every Counter advances on a rising edge of
its source Timer's pulse field (the generated code reads `s->tout_<src>`,
which only compiles when the source is a Timer). -/
def aotTick (e : Engine) (dt : Rat) (s : AotState) : AotState :=
  let s1 := (timerNodesOf e).foldl
    (fun (st : AotState) n =>
      let ct := computeType n
      let st := { st with tout := setA st.tout n.id (coerceNum ct 0) }
      let interval := timerInterval n
      if interval > 0 then
        let a := (lookupA st.acc n.id).getD 0 + dt
        if a ≥ interval then
          { st with acc := setA st.acc n.id (a - interval), tout := setA st.tout n.id (coerceNum ct 1) }
        else { st with acc := setA st.acc n.id a }
      else st)
    s
  (counterNodesOf e).foldl
    (fun (st : AotState) n =>
      match counterSrcOf e n with
      | none => st
      | some src =>
          let tickv : Int := if valToRat ((lookupA st.tout src).getD (.f 0)) > 1 / 2 then 1 else 0
          let c0 := (lookupA st.cnt n.id).getD 0
          let c1 := if tickv == 1 && (lookupA st.last n.id).getD 0 == 0 then c0 + 1 else c0
          { st with cnt := setA st.cnt n.id c1, last := setA st.last n.id tickv })
    s1

/-- `nodeflow_step`: straight-line evaluation in topological order over
per-node temporaries (`ctype _n = 0;`), then the sink fields of the
`Outputs` record are stored. -/
def aotStep (e : Engine) (ins : List (String × Val)) (s : AotState) : List (String × Val) :=
  let temps0 : List (String × Val) :=
    e.nodes.filterMap (fun n =>
      if n.outputs.isEmpty then none else some (n.id, coerceNum (computeType n) 0))
  let temps := e.executionOrder.foldl
    (fun (ts : List (String × Val)) nodeId =>
      match e.nodes.find? (fun n => n.id == nodeId) with
      | none => ts
      | some n =>
          if n.outputs.isEmpty then ts
          else
            let ct := computeType n
            if n.type == "DeviceTrigger" then
              setA ts n.id ((lookupA ins n.id).getD (coerceNum ct 0))
            else if n.type == "Timer" then
              setA ts n.id ((lookupA s.tout n.id).getD (coerceNum ct 0))
            else if n.type == "Value" then
              setA ts n.id (coerceNum ct (paramValueAsDouble n))
            else if n.type == "Counter" then
              setA ts n.id (coerceNum ct ((lookupA s.cnt n.id).getD 0))
            else if n.type == "Add" then
              let srcs := n.inputs.filterMap (fun ip =>
                (e.connections.find? (fun c => c.toNode == n.id && c.toPort == ip.id)).map (·.fromNode))
              let v :=
                if ct == "int" then
                  Val.i (wrap32 (srcs.foldl
                    (fun (acc : Int) src => acc + ratTrunc (valToRat ((lookupA ts src).getD (.i 0)))) 0))
                else
                  let q := srcs.foldl
                    (fun (acc : Rat) src => acc + valToRat ((lookupA ts src).getD (.i 0))) 0
                  if ct == "double" then Val.d q else Val.f q
              setA ts n.id v
            else ts)
    temps0
  (sinkNodesOf e).map (fun n =>
    (n.id, (lookupA temps n.id).getD (coerceNum (computeType n) 0)))

/-- `nodeflow_set_input(handle, value, ...)`: the generated chain of `if`
statements matches the handle of each DeviceTrigger node's first output and
stores the double `value` cast to the field's compute type. -/
def aotSetInput (e : Engine) (h : Nat) (v : Rat) (ins : List (String × Val)) :
    List (String × Val) :=
  (inputNodesOf e).foldl
    (fun acc n =>
      match n.outputs.head? with
      | none => acc
      | some op =>
          match getPortHandle e n.id op.id "output" with
          | some hn => if hn == h then setA acc n.id (coerceNum (computeType n) v) else acc
          | none => acc)
    ins

/-- `nodeflow_get_output(handle, ...)`: the generated chain returns, for the
first node whose primary-output handle matches, the Timer pulse or Counter
total from `State`, the baked constant for a Value node, or the sink's
`Outputs` field; unmatched handles fall through to `0.0`. -/
def aotGetOutputGo (e : Engine) (h : Nat) (outs : List (String × Val)) (s : AotState) :
    List Node → Rat
  | [] => 0
  | n :: rest =>
      if n.outputs.isEmpty then aotGetOutputGo e h outs s rest
      else
        match getPortHandle e n.id (n.outputs.headD { id := "", dataType := "", value := .f 0 }).id "output" with
        | some hn =>
            if hn == h then
              if n.type == "Timer" then valToRat ((lookupA s.tout n.id).getD (.f 0))
              else if n.type == "Counter" then (lookupA s.cnt n.id).getD 0
              else if n.type == "Value" then paramValueAsDouble n
              else if isSinkNode e n then valToRat ((lookupA outs n.id).getD (.i 0))
              else aotGetOutputGo e h outs s rest
            else aotGetOutputGo e h outs s rest
        | none => aotGetOutputGo e h outs s rest

def aotGetOutput (e : Engine) (h : Nat) (outs : List (String × Val)) (s : AotState) : Rat :=
  aotGetOutputGo e h outs s e.nodes

/-! ## Driving both implementations over an operation sequence -/

/-- One external operation of the parity contract. -/
inductive FlowOp where
  | setInput (node : String) (v : Rat)
  | tick (dt : Rat)
  | step
deriving DecidableEq, Repr

/-- Run a sequence of operations on the interpreter engine. -/
def runInterp (e : Engine) : List FlowOp → Engine
  | [] => e
  | op :: rest =>
      match op with
      | .setInput n v => runInterp (setNodeValue e n v) rest
      | .tick dt => runInterp (tick e dt) rest
      | .step => runInterp (execute e) rest

/-- Host-side image of the generated artifact: the `Inputs` and `Outputs`
records and the `State` record (the host zero-initializes the records and
calls `nodeflow_init`). -/
structure AotMachine where
  ins : List (String × Val)
  outs : List (String × Val)
  st : AotState
deriving DecidableEq, Repr

def aotMachineInit (e : Engine) : AotMachine :=
  { ins := (inputNodesOf e).map (fun n => (n.id, coerceNum (computeType n) 0))
    outs := (sinkNodesOf e).map (fun n => (n.id, coerceNum (computeType n) 0))
    st := aotInit e }

/-- Run a sequence of operations on the generated artifact.  `setInput`
resolves the named node's primary-output handle the way a descriptor-driven
host does, and calls `nodeflow_set_input` with it. -/
def runAot (e : Engine) (m : AotMachine) : List FlowOp → AotMachine
  | [] => m
  | op :: rest =>
      match op with
      | .setInput nodeId v =>
          let m1 :=
            match e.nodes.find? (fun n => n.id == nodeId) with
            | some n =>
                match n.outputs.head? with
                | some op0 =>
                    match getPortHandle e nodeId op0.id "output" with
                    | some h => { m with ins := aotSetInput e h v m.ins }
                    | none => m
                | none => m
            | none => m
          runAot e m1 rest
      | .tick dt => runAot e { m with st := aotTick e dt m.st } rest
      | .step => runAot e { m with outs := aotStep e m.ins m.st } rest

/-- Observable of the interpreter: the (port_handle, value) pair of every
output port, read from the port-value arena. -/
def interpObs (e : Engine) : List (Nat × Rat) :=
  e.portDescs.filterMap (fun pd =>
    if pd.direction == "output" then
      some (pd.handle, valToRat (e.portValues.getD pd.handle (.i 0)))
    else none)

/-- Observable of the artifact: the (port_handle, value) pair of every
output port, read through `nodeflow_get_output`. -/
def aotObs (e : Engine) (m : AotMachine) : List (Nat × Rat) :=
  e.portDescs.filterMap (fun pd =>
    if pd.direction == "output" then
      some (pd.handle, aotGetOutput e pd.handle m.outs m.st)
    else none)

/-! ## Concrete graphs used by witnesses and counterexamples -/

/-- Scenario-1 graph: DeviceTrigger nodes a, b, c (f32) into a three-input
f32 Add node `sum`. -/
def descAdd3 : Description :=
  { nodes :=
      [ { id := "a", type := "DeviceTrigger", inputs := [], outputs := [⟨"out1", "float"⟩], params := [] }
      , { id := "b", type := "DeviceTrigger", inputs := [], outputs := [⟨"out1", "float"⟩], params := [] }
      , { id := "c", type := "DeviceTrigger", inputs := [], outputs := [⟨"out1", "float"⟩], params := [] }
      , { id := "sum", type := "Add"
          inputs := [⟨"in1", "float"⟩, ⟨"in2", "float"⟩, ⟨"in3", "float"⟩]
          outputs := [⟨"out1", "float"⟩], params := [] } ]
    connections :=
      [ ⟨"a", "out1", "sum", "in1"⟩
      , ⟨"b", "out1", "sum", "in2"⟩
      , ⟨"c", "out1", "sum", "in3"⟩ ] }

/-- A single Timer node with a 100 ms interval and one f32 output. -/
def descTimer1 : Description :=
  { nodes :=
      [ { id := "m", type := "Timer", inputs := [], outputs := [⟨"out1", "float"⟩]
          params := [("interval_ms", .i 100)] } ]
    connections := [] }

/-- A Timer with a positive interval but no declared outputs. -/
def descTimerNoOut : Description :=
  { nodes :=
      [ { id := "m", type := "Timer", inputs := [], outputs := []
          params := [("interval_ms", .i 100)] } ]
    connections := [] }

/-- Timer feeding a Counter (scenario-3 shape). -/
def descTimerCounter : Description :=
  { nodes :=
      [ { id := "m", type := "Timer", inputs := [], outputs := [⟨"out1", "double"⟩]
          params := [("interval_ms", .i 3000)] }
      , { id := "c", type := "Counter", inputs := [⟨"in1", "double"⟩]
          outputs := [⟨"out1", "int"⟩], params := [] } ]
    connections := [ ⟨"m", "out1", "c", "in1"⟩ ] }

/-- Two nodes carrying the same identifier. -/
def descDup : Description :=
  { nodes :=
      [ { id := "a", type := "DeviceTrigger", inputs := [], outputs := [⟨"out1", "float"⟩], params := [] }
      , { id := "a", type := "DeviceTrigger", inputs := [], outputs := [⟨"out1", "float"⟩], params := [] } ]
    connections := [] }

/-- A numeric output wired to a string input: rejected as a type mismatch. -/
def descMismatch : Description :=
  { nodes :=
      [ { id := "a", type := "DeviceTrigger", inputs := [], outputs := [⟨"out1", "float"⟩], params := [] }
      , { id := "b", type := "Value", inputs := [⟨"in1", "string"⟩], outputs := [], params := [] } ]
    connections := [ ⟨"a", "out1", "b", "in1"⟩ ] }

/-- A single-node graph used as an uncontroversial previous state. -/
def descTiny : Description :=
  { nodes :=
      [ { id := "x", type := "Value", inputs := [], outputs := [⟨"out1", "float"⟩]
          params := [("value", .d 5)] } ]
    connections := [] }

/-- The scenario-1 engine freshly loaded. -/
def engAdd3 : Engine := (loadFromJson emptyEngine descAdd3).1

def engTimer1 : Engine := (loadFromJson emptyEngine descTimer1).1

def engTimerNoOut : Engine := (loadFromJson emptyEngine descTimerNoOut).1

def engTimerCounter : Engine := (loadFromJson emptyEngine descTimerCounter).1

def engTiny : Engine := (loadFromJson emptyEngine descTiny).1

/-- The DeviceTrigger node `a` as installed by loading `descAdd3`. -/
def nodeA : Node :=
  { id := "a", type := "DeviceTrigger", inputs := []
    outputs := [{ id := "out1", dataType := "float", value := .f 0 }], params := [] }

/-! ## Spec-side definitions used by refinement-style claims -/

/-- Shape of a node: everything except the mutable port values — identifier,
kind, and the (id, dataType) signature of its ports.  Evaluation only
rewrites values, so the shape is an invariant of the run. -/
def nodeShape (n : Node) : String × String × List (String × String) × List (String × String) :=
  (n.id, n.type, n.inputs.map (fun p => (p.id, p.dataType)),
   n.outputs.map (fun p => (p.id, p.dataType)))

/-- The declared port order of one node as stated by the spec: all inputs in
declared order, then all outputs in declared order. -/
def specPortOrder (ns : NodeSpec) : List (String × String × String) :=
  ns.inputs.map (fun p => (p.id, "input", p.dataType)) ++
    ns.outputs.map (fun p => (p.id, "output", p.dataType))

/-- Number one node's declared ports contiguously from `k`, as the spec
words it. -/
def numberPorts (nodeId : String) (k : Nat) : List (String × String × String) → List PortDesc
  | [] => []
  | (pid, dir, dt) :: rest =>
      { handle := k, nodeId := nodeId, portId := pid, direction := dir, dataType := dt } ::
        numberPorts nodeId (k + 1) rest

/-- Handle assignment as the spec words it: walk the nodes in load order,
each node's inputs before its outputs, numbering contiguously from `k`. -/
def specHandleAssignmentFrom (k : Nat) : List NodeSpec → List PortDesc
  | [] => []
  | ns :: rest =>
      numberPorts ns.id k (specPortOrder ns) ++
        specHandleAssignmentFrom (k + (specPortOrder ns).length) rest

/-- Handle assignment over the whole description, numbered from zero. -/
def specHandleAssignment (d : Description) : List PortDesc :=
  specHandleAssignmentFrom 0 d.nodes

/-- The key-map entries one node's ports contribute, in declared order,
numbered from `k` (`nodeId:portId:direction`). -/
def portKeys (nodeId dir : String) (k : Nat) : List PortSpec → List (String × Nat)
  | [] => []
  | p :: ps => (nodeId ++ ":" ++ p.id ++ ":" ++ dir, k) :: portKeys nodeId dir (k + 1) ps

/-- The full port-key map after loading a node list with handles numbered
from `k`: each node conses its inputs then its outputs, so the most recent
entry is first. -/
def nodeKeysAcc (k : Nat) : List NodeSpec → List (String × Nat)
  | [] => []
  | ns :: rest =>
      nodeKeysAcc (k + (specPortOrder ns).length) rest ++
        (portKeys ns.id "output" (k + ns.inputs.length) ns.outputs).reverse ++
        (portKeys ns.id "input" k ns.inputs).reverse

/-- Fold of the Counter step function over a sequence of observed input
values, starting from the zeroed per-node state. -/
def countRun (l : List Rat) : Int × Rat :=
  l.foldl (fun st dv => counterStep (if counterHigh dv then 1 else 0) st.1 st.2) (0, 0)

/-- Number of rising edges in a sequence of observed input values, as the
spec words it: positions whose value is high while the previous observed
value (initially low) was not. -/
def risingEdges : Bool → List Rat → Nat
  | _, [] => 0
  | prev, dv :: rest => (if counterHigh dv && !prev then 1 else 0) + risingEdges (counterHigh dv) rest

/-- Current cached value of an output port, looked up the way the delta
walk does: first node with the identifier, first output with the port
identifier. -/
def currentOutVal (e : Engine) (nid pid : String) : Option Val :=
  match e.nodes.find? (fun n => n.id == nid) with
  | some n => (n.outputs.find? (fun op => op.id == pid)).map (fun op => op.value)
  | none => none

/-! ## Infrastructure lemmas

Normal-form ("frame") lemmas: each mutating operation equals a single
record update of the fields it may touch, so every other field is preserved
syntactically. -/

theorem foldl_inv {α : Type _} {P : Engine → Prop} {f : Engine → α → Engine}
    (hf : ∀ e x, P e → P (f e x)) :
    ∀ (l : List α) (e : Engine), P e → P (l.foldl f e)
  | [], _, hp => hp
  | x :: xs, e, hp => foldl_inv hf xs (f e x) (hf e x hp)

theorem getD_set_ne {γ : Type _} :
    ∀ (l : List γ) {i j : Nat} (a d : γ), i ≠ j → (l.set i a).getD j d = l.getD j d
  | [], _, _, _, _, _ => rfl
  | x :: xs, 0, 0, a, d, h => absurd rfl h
  | x :: xs, 0, j + 1, a, d, _ => by simp [List.getD]
  | x :: xs, i + 1, 0, a, d, _ => by simp [List.getD]
  | x :: xs, i + 1, j + 1, a, d, h => by
      have := getD_set_ne xs (i := i) (j := j) a d (fun hc => h (by simp [hc]))
      simpa [List.getD] using this

theorem getD_set_self {γ : Type _} :
    ∀ (l : List γ) {i : Nat} (a d : γ), i < l.length → (l.set i a).getD i d = a
  | [], i, a, d, h => absurd h (by simp)
  | x :: xs, 0, a, d, _ => rfl
  | x :: xs, i + 1, a, d, h => by
      have := getD_set_self xs (i := i) a d (by simpa using h)
      simpa [List.getD] using this

theorem propagateRaw_spec (e : Engine) (h : Nat) (v : Val) :
    ∃ pv, propagateRaw e h v = { e with portValues := pv } ∧
      pv.length = e.portValues.length := by
  unfold propagateRaw
  refine foldl_inv (P := fun x => ∃ pv, x = { e with portValues := pv } ∧
    pv.length = e.portValues.length) ?_ _ e ⟨e.portValues, rfl, rfl⟩
  rintro a y ⟨pv, rfl, hLen⟩
  dsimp only
  split
  · exact ⟨pv.set y v, rfl, by simpa using hLen⟩
  · exact ⟨pv, rfl, hLen⟩

theorem writePort_spec (e : Engine) (h : Nat) (v : Val) :
    ∃ pv st, writePort e h v = { e with portValues := pv, portChangedStamp := st } ∧
      pv.length = e.portValues.length ∧ st.length = e.portChangedStamp.length := by
  unfold writePort
  split
  · dsimp only
    split
    · obtain ⟨pv, hEq, hLen⟩ := propagateRaw_spec
        { e with portValues := e.portValues.set h v
                 portChangedStamp := e.portChangedStamp.set h e.evalGeneration } h v
      exact ⟨pv, e.portChangedStamp.set h e.evalGeneration, hEq,
        by simpa using hLen, by simp⟩
    · obtain ⟨pv, hEq, hLen⟩ := propagateRaw_spec { e with portValues := e.portValues.set h v } h v
      exact ⟨pv, e.portChangedStamp, hEq, by simpa using hLen, rfl⟩
  · exact ⟨e.portValues, e.portChangedStamp, rfl, rfl, rfl⟩

theorem enqueueNode_spec (e : Engine) (id : String) :
    ∃ q s, enqueueNode e id = { e with readyQueue := q, readyStamp := s } := by
  unfold enqueueNode
  split
  · exact ⟨e.readyQueue, e.readyStamp, rfl⟩
  · exact ⟨_, _, rfl⟩

theorem enqueueDependents_spec (e : Engine) (id : String) :
    ∃ q s, enqueueDependents e id = { e with readyQueue := q, readyStamp := s } := by
  unfold enqueueDependents
  refine foldl_inv (P := fun x => ∃ q s, x = { e with readyQueue := q, readyStamp := s }) ?_ _ e
    ⟨e.readyQueue, e.readyStamp, rfl⟩
  rintro a y ⟨q, s, rfl⟩
  obtain ⟨q1, s1, hEq⟩ := enqueueNode_spec { e with readyQueue := q, readyStamp := s } y
  exact ⟨q1, s1, hEq⟩

theorem writeNodeOutputs_spec (nid : String) (vOf : Port → Val) (e : Engine) (outs : List Port) :
    ∃ pv st, writeNodeOutputs nid vOf e outs = { e with portValues := pv, portChangedStamp := st } ∧
      pv.length = e.portValues.length ∧ st.length = e.portChangedStamp.length := by
  unfold writeNodeOutputs
  refine foldl_inv (P := fun x => ∃ pv st, x = { e with portValues := pv, portChangedStamp := st } ∧
    pv.length = e.portValues.length ∧ st.length = e.portChangedStamp.length) ?_ _ e
    ⟨e.portValues, e.portChangedStamp, rfl, rfl, rfl⟩
  rintro a op ⟨pv, st, rfl, hLv, hLs⟩
  match hh : getPortHandle { e with portValues := pv, portChangedStamp := st } nid op.id "output" with
  | none => exact ⟨pv, st, rfl, hLv, hLs⟩
  | some h =>
      obtain ⟨pv1, st1, hEq, hLv1, hLs1⟩ :=
        writePort_spec { e with portValues := pv, portChangedStamp := st } h (vOf op)
      exact ⟨pv1, st1, hEq, hLv1.trans hLv, hLs1.trans hLs⟩

/-- Any stamp slot after `writePort` holds either its old value or the
current generation. -/
theorem writePort_stamp_getD (e : Engine) (h : Nat) (v : Val) (h0 : Nat) :
    (writePort e h v).portChangedStamp.getD h0 0 = e.portChangedStamp.getD h0 0 ∨
    (writePort e h v).portChangedStamp.getD h0 0 = e.evalGeneration := by
  unfold writePort
  split
  · dsimp only
    split
    · obtain ⟨pv, hEq, _⟩ := propagateRaw_spec
        { e with portValues := e.portValues.set h v
                 portChangedStamp := e.portChangedStamp.set h e.evalGeneration } h v
      rw [hEq]
      by_cases hc : h = h0
      · subst hc
        right
        exact getD_set_self _ _ _ (by simpa using ‹h < _›)
      · left
        exact getD_set_ne _ _ _ hc
    · obtain ⟨pv, hEq, _⟩ := propagateRaw_spec { e with portValues := e.portValues.set h v } h v
      rw [hEq]
      left; rfl
  · left; rfl

/-- `writePort` at a valid handle stamps that slot with the current
generation. -/
theorem writePort_stamp_write (e : Engine) (h : Nat) (v : Val)
    (hv : h < e.portValues.length) (hs : h < e.portChangedStamp.length) :
    (writePort e h v).portChangedStamp.getD h 0 = e.evalGeneration := by
  unfold writePort
  rw [if_pos hv]
  dsimp only
  rw [if_pos (by simpa using hs)]
  obtain ⟨pv, hEq, _⟩ := propagateRaw_spec
    { e with portValues := e.portValues.set h v
             portChangedStamp := e.portChangedStamp.set h e.evalGeneration } h v
  rw [hEq]
  exact getD_set_self _ _ _ (by simpa using hs)

/-- Unfolding of `writeNodeOutputs` on a cons cell. -/
theorem writeNodeOutputs_cons (nid : String) (vOf : Port → Val) (e : Engine)
    (op : Port) (rest : List Port) :
    writeNodeOutputs nid vOf e (op :: rest) =
      writeNodeOutputs nid vOf
        (match getPortHandle e nid op.id "output" with
          | some h => writePort e h (vOf op)
          | none => e) rest := rfl

/-- Any stamp slot after `writeNodeOutputs` holds its old value or the
current generation, and the generation itself is preserved. -/
theorem writeNodeOutputs_stamp_getD (nid : String) (vOf : Port → Val) :
    ∀ (outs : List Port) (e : Engine) (h0 : Nat),
    (writeNodeOutputs nid vOf e outs).portChangedStamp.getD h0 0 = e.portChangedStamp.getD h0 0 ∨
    (writeNodeOutputs nid vOf e outs).portChangedStamp.getD h0 0 = e.evalGeneration
  | [], e, h0 => Or.inl rfl
  | op :: rest, e, h0 => by
      rw [writeNodeOutputs_cons]
      match hh : getPortHandle e nid op.id "output" with
      | none =>
          exact writeNodeOutputs_stamp_getD nid vOf rest e h0
      | some h =>
          obtain ⟨pv, st, hEq, _, _⟩ := writePort_spec e h (vOf op)
          rcases writeNodeOutputs_stamp_getD nid vOf rest (writePort e h (vOf op)) h0 with h1 | h1
          · rcases writePort_stamp_getD e h (vOf op) h0 with h2 | h2
            · exact Or.inl (h1.trans h2)
            · exact Or.inr (h1.trans h2)
          · have hg : (writePort e h (vOf op)).evalGeneration = e.evalGeneration := by rw [hEq]
            exact Or.inr (h1.trans hg)

/-- `writeNodeOutputs` stamps the handle of every member of the output list
with the current generation. -/
theorem writeNodeOutputs_stamps (nid : String) (vOf : Port → Val) :
    ∀ (outs : List Port) (e : Engine) (op : Port) (h : Nat),
    op ∈ outs → getPortHandle e nid op.id "output" = some h →
    h < e.portValues.length → h < e.portChangedStamp.length →
    (writeNodeOutputs nid vOf e outs).portChangedStamp.getD h 0 = e.evalGeneration
  | [], _, _, _, hmem, _, _, _ => absurd hmem (by simp)
  | x :: rest, e, op, h, hmem, hget, hv, hs => by
      rw [writeNodeOutputs_cons]
      rcases List.mem_cons.mp hmem with hEqx | hmem2
      · subst hEqx
        rw [hget]
        have hw := writePort_stamp_write e h (vOf op) hv hs
        obtain ⟨pv, st, hEq, hLv, hLs⟩ := writePort_spec e h (vOf op)
        show (writeNodeOutputs nid vOf (writePort e h (vOf op)) rest).portChangedStamp.getD h 0 =
          e.evalGeneration
        rcases writeNodeOutputs_stamp_getD nid vOf rest (writePort e h (vOf op)) h with h1 | h1
        · rw [h1, hw]
        · rw [h1]
          rw [hEq]
      · match hh : getPortHandle e nid x.id "output" with
        | none =>
            exact writeNodeOutputs_stamps nid vOf rest e op h hmem2 hget hv hs
        | some hx =>
            obtain ⟨pv, st, hEq, hLv, hLs⟩ := writePort_spec e hx (vOf x)
            have hget1 : getPortHandle (writePort e hx (vOf x)) nid op.id "output" = some h := by
              rw [hEq]; exact hget
            have := writeNodeOutputs_stamps nid vOf rest (writePort e hx (vOf x)) op h hmem2 hget1
              (by rw [hEq]; simpa [hLv] using hv) (by rw [hEq]; simpa [hLs] using hs)
            rw [this, hEq]

/-- Replacing the first node with an identically shaped node preserves the
shape list. -/
theorem updateFirstNode_shape :
    ∀ (ns : List Node) (n n1 : Node),
    ns.find? (fun x => x.id == n.id) = some n → nodeShape n1 = nodeShape n →
    (updateFirstNode ns n.id n1).map nodeShape = ns.map nodeShape
  | [], n, n1, hf, _ => by simp at hf
  | x :: rest, n, n1, hf, hs => by
      unfold updateFirstNode
      by_cases hx : (x.id == n.id) = true
      · rw [if_pos hx]
        simp only [List.find?, hx] at hf
        cases hf
        simp [hs]
      · rw [if_neg (by simpa using hx)]
        have hx2 : (x.id == n.id) = false := by simpa using hx
        simp only [List.find?, hx2] at hf
        simp [updateFirstNode_shape rest n n1 hf hs]

/-- Overwriting only port values preserves a node's shape. -/
theorem nodeShape_value_update (n : Node) (f : Port → Val) :
    nodeShape { n with outputs := n.outputs.map (fun op => { op with value := f op }) } =
      nodeShape n := by
  simp [nodeShape, List.map_map]

/-- Normal form of `applyNodeWrite`: only nodes, port values and stamps
change, shapes are preserved. -/
theorem applyNodeWrite_spec (e : Engine) (n n1 : Node) (vOf : Port → Val)
    (hfind : e.nodes.find? (fun x => x.id == n.id) = some n)
    (hshape : nodeShape n1 = nodeShape n) :
    ∃ ns pv st,
      (applyNodeWrite e n n1 vOf).1 =
        { e with nodes := ns, portValues := pv, portChangedStamp := st } ∧
      ns.map nodeShape = e.nodes.map nodeShape ∧
      pv.length = e.portValues.length ∧ st.length = e.portChangedStamp.length ∧
      (applyNodeWrite e n n1 vOf).2 = n1 := by
  obtain ⟨pv, st, hEq, hLv, hLs⟩ :=
    writeNodeOutputs_spec n.id vOf { e with nodes := updateFirstNode e.nodes n.id n1 } n1.outputs
  exact ⟨updateFirstNode e.nodes n.id n1, pv, st, hEq,
    updateFirstNode_shape e.nodes n n1 hfind hshape, hLv, hLs, rfl⟩

/-- `applyNodeWrite` stamps the handle of every output of the updated node
with the current generation. -/
theorem applyNodeWrite_stamps (e : Engine) (n n1 : Node) (vOf : Port → Val)
    (op : Port) (h : Nat) (hmem : op ∈ n1.outputs)
    (hget : getPortHandle e n.id op.id "output" = some h)
    (hv : h < e.portValues.length) (hs : h < e.portChangedStamp.length) :
    (applyNodeWrite e n n1 vOf).1.portChangedStamp.getD h 0 = e.evalGeneration :=
  writeNodeOutputs_stamps n.id vOf n1.outputs
    { e with nodes := updateFirstNode e.nodes n.id n1 } op h hmem hget hv hs

/-- Normal form of `evalNodeKind`: the engine half only rewrites nodes
(shape-preservingly), port values, port stamps and the Counter side tables;
the node half keeps the node's shape. -/
theorem evalNodeKind_spec (e : Engine) (n : Node)
    (hfind : e.nodes.find? (fun x => x.id == n.id) = some n) :
    ∃ ns pv st cl cv,
      (evalNodeKind e n).1 =
        { e with
            nodes := ns
            portValues := pv
            portChangedStamp := st
            counterLastTick := cl
            counterValue := cv } ∧
      ns.map nodeShape = e.nodes.map nodeShape ∧
      pv.length = e.portValues.length ∧ st.length = e.portChangedStamp.length ∧
      nodeShape (evalNodeKind e n).2 = nodeShape n := by
  unfold evalNodeKind
  split
  · -- Value
    obtain ⟨ns, pv, st, hEq, hsh, hLv, hLs, h2⟩ := applyNodeWrite_spec e n
      (updatedOutputsNode n (fun _ => (lookupA n.params "value").getD (.f 0)))
      (fun _ => (lookupA n.params "value").getD (.f 0)) hfind (nodeShape_value_update n _)
    exact ⟨ns, pv, st, e.counterLastTick, e.counterValue, hEq, hsh, hLv, hLs,
      by rw [h2]; exact nodeShape_value_update n _⟩
  · split
    · -- DeviceTrigger
      match hp : lookupA n.params "value" with
      | some v =>
          obtain ⟨ns, pv, st, hEq, hsh, hLv, hLs, h2⟩ := applyNodeWrite_spec e n
            (updatedOutputsNode n (fun _ => v)) Port.value hfind (nodeShape_value_update n _)
          exact ⟨ns, pv, st, e.counterLastTick, e.counterValue, hEq, hsh, hLv, hLs,
            by rw [h2]; exact nodeShape_value_update n _⟩
      | none =>
          obtain ⟨ns, pv, st, hEq, hsh, hLv, hLs, h2⟩ :=
            applyNodeWrite_spec e n n Port.value hfind rfl
          exact ⟨ns, pv, st, e.counterLastTick, e.counterValue, hEq, hsh, hLv, hLs,
            by rw [h2]⟩
    · split
      · -- Add
        split
        · exact ⟨e.nodes, e.portValues, e.portChangedStamp, e.counterLastTick, e.counterValue,
            rfl, rfl, rfl, rfl, rfl⟩
        · obtain ⟨ns, pv, st, hEq, hsh, hLv, hLs, h2⟩ := applyNodeWrite_spec e n
            (updatedOutputsNode n (fun _ =>
              addSum e n (n.outputs.headD { id := "", dataType := "float", value := .f 0 }).dataType))
            (fun _ =>
              addSum e n (n.outputs.headD { id := "", dataType := "float", value := .f 0 }).dataType)
            hfind (nodeShape_value_update n _)
          exact ⟨ns, pv, st, e.counterLastTick, e.counterValue, hEq, hsh, hLv, hLs,
            by rw [h2]; exact nodeShape_value_update n _⟩
      · split
        · -- Counter
          match hidx : lookupA e.nodeIndex n.id with
          | none =>
              exact ⟨e.nodes, e.portValues, e.portChangedStamp, e.counterLastTick, e.counterValue,
                rfl, rfl, rfl, rfl, rfl⟩
          | some idx =>
              obtain ⟨ns, pv, st, hEq, hsh, hLv, hLs, h2⟩ := applyNodeWrite_spec
                { e with
                    counterLastTick := e.counterLastTick.set idx
                      (counterStep (counterTickNow e n) (e.counterLastTick.getD idx 0)
                        (e.counterValue.getD idx 0)).1
                    counterValue := e.counterValue.set idx
                      (counterStep (counterTickNow e n) (e.counterLastTick.getD idx 0)
                        (e.counterValue.getD idx 0)).2 }
                n
                (updatedOutputsNode n (fun op => coerceNum op.dataType
                  (counterStep (counterTickNow e n) (e.counterLastTick.getD idx 0)
                    (e.counterValue.getD idx 0)).2))
                (fun op => coerceNum op.dataType
                  (counterStep (counterTickNow e n) (e.counterLastTick.getD idx 0)
                    (e.counterValue.getD idx 0)).2)
                hfind (nodeShape_value_update n _)
              exact ⟨ns, pv, st, _, _, hEq, hsh, hLv, hLs,
                by rw [h2]; exact nodeShape_value_update n _⟩
        · -- unhandled kind
          exact ⟨e.nodes, e.portValues, e.portChangedStamp, e.counterLastTick, e.counterValue,
            rfl, rfl, rfl, rfl, rfl⟩

/-- Membership transfer into the value-updated node. -/
theorem mem_updatedOutputs {n : Node} {f : Port → Val} {op : Port} (hmem : op ∈ n.outputs) :
    { op with value := f op } ∈ (updatedOutputsNode n f).outputs :=
  List.mem_map_of_mem _ hmem

theorem applyNodeWrite_stamp_getD (e : Engine) (n n1 : Node) (vOf : Port → Val) (h0 : Nat) :
    (applyNodeWrite e n n1 vOf).1.portChangedStamp.getD h0 0 = e.portChangedStamp.getD h0 0 ∨
    (applyNodeWrite e n n1 vOf).1.portChangedStamp.getD h0 0 = e.evalGeneration :=
  writeNodeOutputs_stamp_getD n.id vOf n1.outputs
    { e with nodes := updateFirstNode e.nodes n.id n1 } h0

/-- Any stamp slot after `evalNodeKind` holds its old value or the current
generation. -/
theorem evalNodeKind_stamp_getD (e : Engine) (n : Node) (h0 : Nat) :
    (evalNodeKind e n).1.portChangedStamp.getD h0 0 = e.portChangedStamp.getD h0 0 ∨
    (evalNodeKind e n).1.portChangedStamp.getD h0 0 = e.evalGeneration := by
  unfold evalNodeKind
  split
  · exact applyNodeWrite_stamp_getD e n _ _ h0
  · split
    · match lookupA n.params "value" with
      | some v => exact applyNodeWrite_stamp_getD e n _ _ h0
      | none => exact applyNodeWrite_stamp_getD e n _ _ h0
    · split
      · split
        · exact Or.inl rfl
        · exact applyNodeWrite_stamp_getD e n _ _ h0
      · split
        · match lookupA e.nodeIndex n.id with
          | none => exact Or.inl rfl
          | some idx =>
              exact applyNodeWrite_stamp_getD
                { e with
                    counterLastTick := e.counterLastTick.set idx
                      (counterStep (counterTickNow e n) (e.counterLastTick.getD idx 0)
                        (e.counterValue.getD idx 0)).1
                    counterValue := e.counterValue.set idx
                      (counterStep (counterTickNow e n) (e.counterLastTick.getD idx 0)
                        (e.counterValue.getD idx 0)).2 }
                n _ _ h0
        · exact Or.inl rfl

/-- `evalNodeKind` on a handled node kind stamps every output handle of the
node with the current generation. -/
theorem evalNodeKind_stamps (e : Engine) (n : Node) (op : Port) (h : Nat)
    (htype : n.type = "Value" ∨ n.type = "DeviceTrigger" ∨ n.type = "Add" ∨ n.type = "Counter")
    (hidx : n.type = "Counter" → (lookupA e.nodeIndex n.id).isSome)
    (hmem : op ∈ n.outputs)
    (hget : getPortHandle e n.id op.id "output" = some h)
    (hv : h < e.portValues.length) (hs : h < e.portChangedStamp.length) :
    (evalNodeKind e n).1.portChangedStamp.getD h 0 = e.evalGeneration := by
  unfold evalNodeKind
  split
  · -- Value
    exact applyNodeWrite_stamps e n _ _ _ h (mem_updatedOutputs hmem) hget hv hs
  · split
    · -- DeviceTrigger
      match lookupA n.params "value" with
      | some v =>
          exact applyNodeWrite_stamps e n _ Port.value _ h (mem_updatedOutputs hmem) hget hv hs
      | none => exact applyNodeWrite_stamps e n n Port.value op h hmem hget hv hs
    · split
      · -- Add
        split
        · rename_i hEmpty
          rw [List.isEmpty_iff] at hEmpty
          rw [hEmpty] at hmem
          exact absurd hmem (by simp)
        · exact applyNodeWrite_stamps e n _ _ _ h (mem_updatedOutputs hmem) hget hv hs
      · split
        · -- Counter
          rename_i hCnt
          match hix : lookupA e.nodeIndex n.id with
          | none =>
              have : (lookupA e.nodeIndex n.id).isSome := hidx (by simpa using hCnt)
              rw [hix] at this
              exact absurd this (by simp)
          | some idx =>
              exact applyNodeWrite_stamps
                { e with
                    counterLastTick := e.counterLastTick.set idx
                      (counterStep (counterTickNow e n) (e.counterLastTick.getD idx 0)
                        (e.counterValue.getD idx 0)).1
                    counterValue := e.counterValue.set idx
                      (counterStep (counterTickNow e n) (e.counterLastTick.getD idx 0)
                        (e.counterValue.getD idx 0)).2 }
                n _ _ _ h (mem_updatedOutputs hmem) hget hv hs
        · -- unhandled: contradicts htype
          rename_i hV hDT hAdd hCnt
          rcases htype with ht | ht | ht | ht <;> rw [ht] at hV hDT hAdd hCnt <;> simp at hV hDT hAdd hCnt

/-- Normal form of `processNode`. -/
theorem processNode_spec (e : Engine) (id : String) :
    ∃ ns pv st cl cv ocs q rs,
      processNode e id =
        { e with
            nodes := ns
            portValues := pv
            portChangedStamp := st
            counterLastTick := cl
            counterValue := cv
            outputChangedStamp := ocs
            readyQueue := q
            readyStamp := rs } ∧
      ns.map nodeShape = e.nodes.map nodeShape ∧
      pv.length = e.portValues.length ∧ st.length = e.portChangedStamp.length := by
  unfold processNode
  cases hf : e.nodes.find? (fun x => x.id == id) with
  | none =>
      exact ⟨e.nodes, e.portValues, e.portChangedStamp, e.counterLastTick, e.counterValue,
        e.outputChangedStamp, e.readyQueue, e.readyStamp, rfl, rfl, rfl, rfl⟩
  | some n =>
      have hid : n.id = id := by simpa using List.find?_some hf
      subst hid
      obtain ⟨ns, pv, st, cl, cv, hEq, hsh, hLv, hLs, hsh2⟩ := evalNodeKind_spec e n hf
      dsimp only
      split
      · rw [hEq]
        obtain ⟨q, rs, hEq2⟩ := enqueueDependents_spec
          { e with
              nodes := ns
              portValues := pv
              portChangedStamp := st
              counterLastTick := cl
              counterValue := cv
              outputChangedStamp :=
                (n.id, e.evalGeneration) :: e.outputChangedStamp } n.id
        rw [hEq2]
        exact ⟨ns, pv, st, cl, cv, _, q, rs, rfl, hsh, hLv, hLs⟩
      · rw [hEq]
        exact ⟨ns, pv, st, cl, cv, e.outputChangedStamp, e.readyQueue, e.readyStamp,
          rfl, hsh, hLv, hLs⟩

/-- Any stamp slot after `processNode` holds its old value or the current
generation. -/
theorem processNode_stamp_getD (e : Engine) (id : String) (h0 : Nat) :
    (processNode e id).portChangedStamp.getD h0 0 = e.portChangedStamp.getD h0 0 ∨
    (processNode e id).portChangedStamp.getD h0 0 = e.evalGeneration := by
  unfold processNode
  cases hf : e.nodes.find? (fun x => x.id == id) with
  | none => exact Or.inl rfl
  | some n =>
      dsimp only
      split
      · obtain ⟨q, rs, hEq2⟩ := enqueueDependents_spec
          { (evalNodeKind e n).1 with
              outputChangedStamp :=
                (n.id, (evalNodeKind e n).1.evalGeneration) ::
                  (evalNodeKind e n).1.outputChangedStamp } n.id
        rw [hEq2]
        exact evalNodeKind_stamp_getD e n h0
      · exact evalNodeKind_stamp_getD e n h0

/-- `processNode` on a handled node (found first by its identifier) stamps
every valid output handle of that node with the current generation. -/
theorem processNode_stamps (e : Engine) (n : Node) (op : Port) (h : Nat)
    (hfind : e.nodes.find? (fun x => x.id == n.id) = some n)
    (htype : n.type = "Value" ∨ n.type = "DeviceTrigger" ∨ n.type = "Add" ∨ n.type = "Counter")
    (hidx : n.type = "Counter" → (lookupA e.nodeIndex n.id).isSome)
    (hmem : op ∈ n.outputs)
    (hget : getPortHandle e n.id op.id "output" = some h)
    (hv : h < e.portValues.length) (hs : h < e.portChangedStamp.length) :
    (processNode e n.id).portChangedStamp.getD h 0 = e.evalGeneration := by
  unfold processNode
  rw [hfind]
  dsimp only
  split
  · obtain ⟨q, rs, hEq2⟩ := enqueueDependents_spec
      { (evalNodeKind e n).1 with
          outputChangedStamp :=
            (n.id, (evalNodeKind e n).1.evalGeneration) ::
              (evalNodeKind e n).1.outputChangedStamp } n.id
    rw [hEq2]
    exact evalNodeKind_stamps e n op h htype hidx hmem hget hv hs
  · exact evalNodeKind_stamps e n op h htype hidx hmem hget hv hs

/-- Cold-start seeding only rewrites the port-value arena. -/
theorem seedColdStart_spec (e : Engine) :
    ∃ pv, seedColdStart e = { e with portValues := pv } ∧
      pv.length = e.portValues.length := by
  unfold seedColdStart
  refine foldl_inv
      (P := fun x => ∃ pv, x = { e with portValues := pv } ∧ pv.length = e.portValues.length)
      ?_ _ _
      (foldl_inv
        (P := fun x => ∃ pv, x = { e with portValues := pv } ∧ pv.length = e.portValues.length)
        ?_ _ e ⟨e.portValues, rfl, rfl⟩)
  · rintro a pd ⟨pv, rfl, hLen⟩
    dsimp only
    split
    · refine foldl_inv
        (P := fun x => ∃ pv, x = { e with portValues := pv } ∧ pv.length = e.portValues.length)
        ?_ _ _ ⟨pv, rfl, hLen⟩
      rintro b hIn ⟨pv2, rfl, hLen2⟩
      dsimp only
      split
      · exact ⟨_, rfl, by simpa using hLen2⟩
      · exact ⟨pv2, rfl, hLen2⟩
    · exact ⟨pv, rfl, hLen⟩
  · rintro a nd ⟨pv, rfl, hLen⟩
    refine foldl_inv
      (P := fun x => ∃ pv, x = { e with portValues := pv } ∧ pv.length = e.portValues.length)
      ?_ _ _ ⟨pv, rfl, hLen⟩
    rintro b op ⟨pv2, rfl, hLen2⟩
    cases getPortHandle { e with portValues := pv2 } nd.id op.id "output" with
    | none => exact ⟨pv2, rfl, hLen2⟩
    | some h =>
        dsimp only
        split
        · exact ⟨_, rfl, by simpa using hLen2⟩
        · exact ⟨pv2, rfl, hLen2⟩

/-- In a list of nodes with pairwise distinct identifiers, the first node
found by a member's identifier is that member. -/
theorem find_first_of_nodup :
    ∀ (ns : List Node) (n : Node), (ns.map Node.id).Nodup → n ∈ ns →
      ns.find? (fun x => x.id == n.id) = some n
  | [], n, _, hmem => absurd hmem (by simp)
  | x :: rest, n, hnd, hmem => by
      rcases List.mem_cons.mp hmem with hEqx | hmem2
      · subst hEqx
        simp [List.find?]
      · have hne : x.id ≠ n.id := by
          intro hc
          have hx : x.id ∈ rest.map Node.id := by
            rw [hc]
            exact List.mem_map_of_mem Node.id hmem2
          simp only [List.map_cons, List.nodup_cons] at hnd
          exact hnd.1 hx
        have hx2 : (x.id == n.id) = false := by simpa using hne
        simp only [List.find?, hx2]
        exact find_first_of_nodup rest n (by
          simp only [List.map_cons, List.nodup_cons] at hnd
          exact hnd.2) hmem2

/-- `find?` by identifier transfers across shape equality of node lists. -/
theorem find?_shape_transfer :
    ∀ (ns1 ns0 : List Node) (k : String) (n : Node),
      ns1.map nodeShape = ns0.map nodeShape →
      ns0.find? (fun x => x.id == k) = some n →
      ∃ n', ns1.find? (fun x => x.id == k) = some n' ∧ nodeShape n' = nodeShape n
  | [], [], k, n, _, hf => by simp at hf
  | [], x0 :: r0, k, n, hsh, hf => by simp at hsh
  | x1 :: r1, [], k, n, hsh, hf => by simp at hsh
  | x1 :: r1, x0 :: r0, k, n, hsh, hf => by
      simp only [List.map_cons, List.cons.injEq] at hsh
      have hid : x1.id = x0.id := by
        have := congrArg Prod.fst hsh.1
        simpa [nodeShape] using this
      by_cases hx : (x0.id == k) = true
      · simp only [List.find?, hx] at hf
        cases hf
        refine ⟨x1, ?_, hsh.1⟩
        simp [List.find?, hid, hx]
      · have hx2 : (x0.id == k) = false := by simpa using hx
        simp only [List.find?, hx2] at hf
        obtain ⟨n', hf1, hs1⟩ := find?_shape_transfer r1 r0 k n hsh.2 hf
        refine ⟨n', ?_, hs1⟩
        simp [List.find?, hid, hx2, hf1]

/-- A member of the outputs transfers across output-signature equality. -/
theorem outputs_sig_transfer {n' n : Node} {op : Port}
    (hsig : n'.outputs.map (fun p => (p.id, p.dataType)) =
      n.outputs.map (fun p => (p.id, p.dataType)))
    (hmem : op ∈ n.outputs) :
    ∃ op' ∈ n'.outputs, op'.id = op.id ∧ op'.dataType = op.dataType := by
  have : (op.id, op.dataType) ∈ n'.outputs.map (fun p => (p.id, p.dataType)) := by
    rw [hsig]
    exact List.mem_map_of_mem _ hmem
  obtain ⟨op', hmem', hEq⟩ := List.mem_map.mp this
  exact ⟨op', hmem', congrArg Prod.fst hEq, congrArg Prod.snd hEq⟩

/-- Components of a shape equality. -/
theorem nodeShape_eq_parts {n' n : Node} (h : nodeShape n' = nodeShape n) :
    n'.id = n.id ∧ n'.type = n.type ∧
    n'.outputs.map (fun p => (p.id, p.dataType)) = n.outputs.map (fun p => (p.id, p.dataType)) := by
  simp only [nodeShape, Prod.mk.injEq] at h
  exact ⟨h.1, h.2.1, h.2.2.2⟩

theorem processNode_evalGeneration (e : Engine) (id : String) :
    (processNode e id).evalGeneration = e.evalGeneration := by
  obtain ⟨ns, pv, st, cl, cv, ocs, q, rs, hEq, _, _, _⟩ := processNode_spec e id
  rw [hEq]

/-- Normal form of one `tick` loop iteration: only the accumulator slot of
the visited node, that node's record, port values, stamps, the node-level
change map and the ready queue can change; accumulator and node entries at
other positions are untouched. -/
theorem tickNode_spec (dt : Rat) (e : Engine) (i : Nat) :
    ∃ ta ns pv st ocs q rs,
      tickNode dt e i =
        { e with
            timerAccumMs := ta
            nodes := ns
            portValues := pv
            portChangedStamp := st
            outputChangedStamp := ocs
            readyQueue := q
            readyStamp := rs } ∧
      (∀ j, j ≠ i → ta.getD j 0 = e.timerAccumMs.getD j 0) ∧
      (∀ j, j ≠ i → ns.getD j dummyNode = e.nodes.getD j dummyNode) ∧
      ta.length = e.timerAccumMs.length := by
  unfold tickNode
  dsimp only
  split
  · exact ⟨e.timerAccumMs, e.nodes, e.portValues, e.portChangedStamp, e.outputChangedStamp,
      e.readyQueue, e.readyStamp, rfl, fun _ _ => rfl, fun _ _ => rfl, rfl⟩
  · split
    · exact ⟨e.timerAccumMs, e.nodes, e.portValues, e.portChangedStamp, e.outputChangedStamp,
        e.readyQueue, e.readyStamp, rfl, fun _ _ => rfl, fun _ _ => rfl, rfl⟩
    · split
      · -- pulse branch
        split
        · -- handle found
          split
          · -- handle in range
            split
            · -- stamp in range
              rename_i h heq hv hs
              obtain ⟨pv2, hp, _⟩ := propagateRaw_spec _ h (Val.f 1)
              rw [hp]
              obtain ⟨q, rs, hq⟩ := enqueueDependents_spec _ (e.nodes.getD i dummyNode).id
              rw [hq]
              refine ⟨_, _, pv2, _, _, q, rs, rfl, ?_, ?_, by simp⟩
              · intro j hj
                exact getD_set_ne _ _ _ (fun hc => hj hc.symm)
              · intro j hj
                exact getD_set_ne _ _ _ (fun hc => hj hc.symm)
            · rename_i h heq hv hs
              obtain ⟨pv2, hp, _⟩ := propagateRaw_spec _ h (Val.f 1)
              rw [hp]
              obtain ⟨q, rs, hq⟩ := enqueueDependents_spec _ (e.nodes.getD i dummyNode).id
              rw [hq]
              refine ⟨_, _, pv2, _, _, q, rs, rfl, ?_, ?_, by simp⟩
              · intro j hj
                exact getD_set_ne _ _ _ (fun hc => hj hc.symm)
              · intro j hj
                exact getD_set_ne _ _ _ (fun hc => hj hc.symm)
          · obtain ⟨q, rs, hq⟩ := enqueueDependents_spec _ (e.nodes.getD i dummyNode).id
            rw [hq]
            refine ⟨_, e.nodes, e.portValues, e.portChangedStamp, _, q, rs, rfl, ?_,
              fun _ _ => rfl, by simp⟩
            intro j hj
            exact getD_set_ne _ _ _ (fun hc => hj hc.symm)
        · obtain ⟨q, rs, hq⟩ := enqueueDependents_spec _ (e.nodes.getD i dummyNode).id
          rw [hq]
          refine ⟨_, e.nodes, e.portValues, e.portChangedStamp, _, q, rs, rfl, ?_,
            fun _ _ => rfl, by simp⟩
          intro j hj
          exact getD_set_ne _ _ _ (fun hc => hj hc.symm)
      · -- hold-at-zero branch
        split
        · -- handle found
          split
          · -- handle in range
            split
            · -- transition high to low
              split
              · rename_i h heq hv hprev hs
                obtain ⟨pv2, hp, _⟩ := propagateRaw_spec _ h (Val.f 0)
                rw [hp]
                obtain ⟨q, rs, hq⟩ := enqueueDependents_spec _ (e.nodes.getD i dummyNode).id
                rw [hq]
                refine ⟨_, _, pv2, _, _, q, rs, rfl, ?_, ?_, by simp⟩
                · intro j hj
                  exact getD_set_ne _ _ _ (fun hc => hj hc.symm)
                · intro j hj
                  exact getD_set_ne _ _ _ (fun hc => hj hc.symm)
              · rename_i h heq hv hprev hs
                obtain ⟨pv2, hp, _⟩ := propagateRaw_spec _ h (Val.f 0)
                rw [hp]
                obtain ⟨q, rs, hq⟩ := enqueueDependents_spec _ (e.nodes.getD i dummyNode).id
                rw [hq]
                refine ⟨_, _, pv2, _, _, q, rs, rfl, ?_, ?_, by simp⟩
                · intro j hj
                  exact getD_set_ne _ _ _ (fun hc => hj hc.symm)
                · intro j hj
                  exact getD_set_ne _ _ _ (fun hc => hj hc.symm)
            · refine ⟨_, _, _, e.portChangedStamp, e.outputChangedStamp,
                e.readyQueue, e.readyStamp, rfl, ?_, ?_, by simp⟩
              · intro j hj
                exact getD_set_ne _ _ _ (fun hc => hj hc.symm)
              · intro j hj
                exact getD_set_ne _ _ _ (fun hc => hj hc.symm)
          · refine ⟨_, e.nodes, e.portValues, e.portChangedStamp, e.outputChangedStamp,
              e.readyQueue, e.readyStamp, rfl, ?_, fun _ _ => rfl, by simp⟩
            intro j hj
            exact getD_set_ne _ _ _ (fun hc => hj hc.symm)
        · refine ⟨_, e.nodes, e.portValues, e.portChangedStamp, e.outputChangedStamp,
            e.readyQueue, e.readyStamp, rfl, ?_, fun _ _ => rfl, by simp⟩
          intro j hj
          exact getD_set_ne _ _ _ (fun hc => hj hc.symm)

theorem foldPV_preserve (v : Val) :
    ∀ (L : List Nat) (x : Engine) (h0 : Nat), h0 ∉ L →
    ((L.foldl
        (fun (acc : Engine) (hIn : Nat) =>
          if hIn < acc.portValues.length then
            { acc with portValues := acc.portValues.set hIn v }
          else acc) x).portValues.getD h0 (.i 0)) = x.portValues.getD h0 (.i 0)
  | [], _, _, _ => rfl
  | hIn :: rest, x, h0, hnm => by
      have h1 : h0 ∉ rest := fun hc => hnm (List.mem_cons_of_mem _ hc)
      have h2 : hIn ≠ h0 := fun hc => hnm (hc ▸ List.mem_cons_self _ _)
      rw [List.foldl_cons, foldPV_preserve v rest _ h0 h1]
      split
      · exact getD_set_ne _ _ _ h2
      · rfl

/-- Propagation does not touch a slot that is not a listed destination. -/
theorem propagateRaw_getD_preserve (x : Engine) (h : Nat) (v : Val) (h0 : Nat)
    (hnm : h0 ∉ x.outToIn.getD h []) :
    (propagateRaw x h v).portValues.getD h0 (.i 0) = x.portValues.getD h0 (.i 0) := by
  unfold propagateRaw
  exact foldPV_preserve v _ x h0 hnm

theorem range_split : ∀ (n i : Nat), i < n →
    ∃ l2, List.range n = List.range i ++ i :: l2 ∧ i ∉ l2
  | 0, i, h => absurd h (Nat.not_lt_zero i)
  | n + 1, i, h => by
      rcases Nat.lt_succ_iff_lt_or_eq.mp h with h2 | h2
      · obtain ⟨l2, hEq, hnm⟩ := range_split n i h2
        refine ⟨l2 ++ [n], ?_, ?_⟩
        · rw [List.range_succ, hEq]
          simp
        · intro hc
          rcases List.mem_append.mp hc with hc1 | hc1
          · exact hnm hc1
          · simp at hc1
            exact absurd h2 (by simp [hc1])
      · subst h2
        refine ⟨[], ?_, by simp⟩
        rw [List.range_succ]

/-- A fold of `tickNode` over positions not containing `i` leaves the
accumulator and node at `i` (and the accumulator length) unchanged. -/
theorem tickFold_other (dt : Rat) :
    ∀ (l : List Nat) (x : Engine) (i : Nat), i ∉ l →
    ((l.foldl (tickNode dt) x).timerAccumMs.getD i 0 = x.timerAccumMs.getD i 0) ∧
    ((l.foldl (tickNode dt) x).nodes.getD i dummyNode = x.nodes.getD i dummyNode) ∧
    ((l.foldl (tickNode dt) x).timerAccumMs.length = x.timerAccumMs.length)
  | [], _, _, _ => ⟨rfl, rfl, rfl⟩
  | j :: rest, x, i, hnm => by
      have h1 : i ∉ rest := fun hc => hnm (List.mem_cons_of_mem _ hc)
      have h2 : i ≠ j := fun hc => hnm (hc ▸ List.mem_cons_self _ _)
      rw [List.foldl_cons]
      obtain ⟨ih1, ih2, ih3⟩ := tickFold_other dt rest (tickNode dt x j) i h1
      obtain ⟨ta, ns, pv, st, ocs, q, rs, hEq, hta, hns, hlen⟩ := tickNode_spec dt x j
      refine ⟨?_, ?_, ?_⟩
      · rw [ih1, hEq]
        exact hta i h2
      · rw [ih2, hEq]
        exact hns i h2
      · rw [ih3, hEq]
        exact hlen

theorem propagateRaw_timerAccumMs (x : Engine) (h : Nat) (v : Val) :
    (propagateRaw x h v).timerAccumMs = x.timerAccumMs := by
  obtain ⟨pv, hEq, _⟩ := propagateRaw_spec x h v
  rw [hEq]

theorem propagateRaw_nodes (x : Engine) (h : Nat) (v : Val) :
    (propagateRaw x h v).nodes = x.nodes := by
  obtain ⟨pv, hEq, _⟩ := propagateRaw_spec x h v
  rw [hEq]

theorem enqueueDependents_timerAccumMs (x : Engine) (id : String) :
    (enqueueDependents x id).timerAccumMs = x.timerAccumMs := by
  obtain ⟨q, rs, hEq⟩ := enqueueDependents_spec x id
  rw [hEq]

theorem enqueueDependents_portValues (x : Engine) (id : String) :
    (enqueueDependents x id).portValues = x.portValues := by
  obtain ⟨q, rs, hEq⟩ := enqueueDependents_spec x id
  rw [hEq]

theorem enqueueDependents_nodes (x : Engine) (id : String) :
    (enqueueDependents x id).nodes = x.nodes := by
  obtain ⟨q, rs, hEq⟩ := enqueueDependents_spec x id
  rw [hEq]

/-- The loop body of `tick` at a Timer position advances that node's
accumulator by `dt` and subtracts the interval exactly once when it is
reached. -/
theorem tickNode_acc_self (dt : Rat) (e : Engine) (i : Nat)
    (hT : (e.nodes.getD i dummyNode).type = "Timer")
    (hO : (e.nodes.getD i dummyNode).outputs ≠ [])
    (hI : 0 < timerInterval (e.nodes.getD i dummyNode))
    (hLen : i < e.timerAccumMs.length) :
    (tickNode dt e i).timerAccumMs.getD i 0 =
      if timerInterval (e.nodes.getD i dummyNode) ≤ e.timerAccumMs.getD i 0 + dt then
        e.timerAccumMs.getD i 0 + dt - timerInterval (e.nodes.getD i dummyNode)
      else e.timerAccumMs.getD i 0 + dt := by
  unfold tickNode
  dsimp only
  rw [if_neg (fun hc => by
        rw [Bool.or_eq_true] at hc
        rcases hc with hc | hc
        · rw [hT] at hc
          exact absurd hc (by decide)
        · exact hO (List.isEmpty_iff.mp hc)),
      if_neg (not_le.mpr hI)]
  split
  · rename_i hge
    rw [enqueueDependents_timerAccumMs]
    dsimp only
    split
    · split
      · split
        · rw [propagateRaw_timerAccumMs]
          exact getD_set_self _ _ _ hLen
        · rw [propagateRaw_timerAccumMs]
          exact getD_set_self _ _ _ hLen
      · exact getD_set_self _ _ _ hLen
    · exact getD_set_self _ _ _ hLen
  · rename_i hge
    split
    · split
      · split
        · rw [enqueueDependents_timerAccumMs, propagateRaw_timerAccumMs]
          split
          · exact getD_set_self _ _ _ hLen
          · exact getD_set_self _ _ _ hLen
        · exact getD_set_self _ _ _ hLen
      · exact getD_set_self _ _ _ hLen
    · exact getD_set_self _ _ _ hLen

/-- The loop body of `tick` at a Timer position writes the pulse (one when
the interval was reached, else zero), coerced to the first output's declared
type, into both the arena slot of the output handle and the node's cached
first output. -/
theorem tickNode_port_write (dt : Rat) (e : Engine) (i : Nat) (h : Nat)
    (hT : (e.nodes.getD i dummyNode).type = "Timer")
    (hO : (e.nodes.getD i dummyNode).outputs ≠ [])
    (hI : 0 < timerInterval (e.nodes.getD i dummyNode))
    (hNLen : i < e.nodes.length)
    (hget : getPortHandle e (e.nodes.getD i dummyNode).id
        ((e.nodes.getD i dummyNode).outputs.headD
          { id := "", dataType := "float", value := .f 0 }).id "output" = some h)
    (hv : h < e.portValues.length)
    (hnm : h ∉ e.outToIn.getD h []) :
    (tickNode dt e i).portValues.getD h (.i 0) =
      coerceNum ((e.nodes.getD i dummyNode).outputs.headD
          { id := "", dataType := "float", value := .f 0 }).dataType
        (if timerInterval (e.nodes.getD i dummyNode) ≤ e.timerAccumMs.getD i 0 + dt then 1 else 0) ∧
    (((tickNode dt e i).nodes.getD i dummyNode).outputs.headD
        { id := "", dataType := "float", value := .f 0 }).value =
      coerceNum ((e.nodes.getD i dummyNode).outputs.headD
          { id := "", dataType := "float", value := .f 0 }).dataType
        (if timerInterval (e.nodes.getD i dummyNode) ≤ e.timerAccumMs.getD i 0 + dt then 1 else 0) := by
  unfold tickNode
  dsimp only
  rw [if_neg (fun hc => by
        rw [Bool.or_eq_true] at hc
        rcases hc with hc | hc
        · rw [hT] at hc
          exact absurd hc (by decide)
        · exact hO (List.isEmpty_iff.mp hc)),
      if_neg (not_le.mpr hI)]
  split
  · -- pulse fired
    split
    · -- handle found
      rename_i h1 heq
      have hh : h1 = h := Option.some.inj (heq.symm.trans hget)
      subst hh
      split
      · -- handle in range
        refine ⟨?_, ?_⟩
        · rw [enqueueDependents_portValues]
          dsimp only
          split
          · exact (propagateRaw_getD_preserve _ _ _ _ (by exact hnm)).trans (getD_set_self _ _ _ hv)
          · exact (propagateRaw_getD_preserve _ _ _ _ (by exact hnm)).trans (getD_set_self _ _ _ hv)
        · rw [enqueueDependents_nodes]
          dsimp only
          split
          · rw [propagateRaw_nodes]
            show (((setNodeAt e.nodes i _).getD i dummyNode).outputs.headD _).value = _
            rw [setNodeAt, getD_set_self _ _ _ hNLen]
            rfl
          · rw [propagateRaw_nodes]
            show (((setNodeAt e.nodes i _).getD i dummyNode).outputs.headD _).value = _
            rw [setNodeAt, getD_set_self _ _ _ hNLen]
            rfl
      · rename_i hcv
        exact absurd hv hcv
    · rename_i heq
      exact absurd (heq.symm.trans hget) (by simp)
  · -- hold at zero
    split
    · rename_i h1 heq
      have hh : h1 = h := Option.some.inj (heq.symm.trans hget)
      subst hh
      split
      · -- handle in range
        split
        · -- high-to-low transition
          refine ⟨?_, ?_⟩
          · rw [enqueueDependents_portValues]
            split
            · exact (propagateRaw_getD_preserve _ _ _ _ (by exact hnm)).trans (getD_set_self _ _ _ hv)
            · exact (propagateRaw_getD_preserve _ _ _ _ (by exact hnm)).trans (getD_set_self _ _ _ hv)
          · rw [enqueueDependents_nodes]
            split
            · rw [propagateRaw_nodes]
              show (((setNodeAt e.nodes i _).getD i dummyNode).outputs.headD _).value = _
              rw [setNodeAt, getD_set_self _ _ _ hNLen]
              rfl
            · rw [propagateRaw_nodes]
              show (((setNodeAt e.nodes i _).getD i dummyNode).outputs.headD _).value = _
              rw [setNodeAt, getD_set_self _ _ _ hNLen]
              rfl
        · refine ⟨?_, ?_⟩
          · exact getD_set_self _ _ _ hv
          · show (((setNodeAt e.nodes i _).getD i dummyNode).outputs.headD _).value = _
            rw [setNodeAt, getD_set_self _ _ _ hNLen]
            rfl
      · rename_i hcv
        exact absurd hv hcv
    · rename_i heq
      exact absurd (heq.symm.trans hget) (by simp)

/-- Folding the Counter step over observed input values, from a previous
sample that is zero or one: the running total gains exactly the number of
rising edges. -/
theorem countRun_go : ∀ (l : List Rat) (last : Int) (c : Rat), last = 0 ∨ last = 1 →
    (l.foldl (fun st dv => counterStep (if counterHigh dv then 1 else 0) st.1 st.2)
      (last, c)).2 = c + (risingEdges (last == 1) l : Nat)
  | [], last, c, _ => by simp [risingEdges]
  | dv :: rest, last, c, hl => by
      rw [List.foldl_cons, risingEdges]
      rcases hl with rfl | rfl <;> cases hb : counterHigh dv
      · simp only [hb]
        refine Eq.trans (countRun_go rest 0 c (Or.inl rfl)) ?_
        push_cast
        rw [if_neg (by decide)]
        ring
      · simp only [hb]
        refine Eq.trans (countRun_go rest 1 (c + 1) (Or.inr rfl)) ?_
        push_cast
        rw [if_pos (by decide)]
        ring
      · simp only [hb]
        refine Eq.trans (countRun_go rest 0 c (Or.inl rfl)) ?_
        push_cast
        rw [if_neg (by decide)]
        ring
      · simp only [hb]
        refine Eq.trans (countRun_go rest 1 c (Or.inr rfl)) ?_
        push_cast
        rw [if_neg (by decide)]
        ring

/-- Counter branch of `evalNodeKind`: the side tables at the node's index
take the stepped state and the cached outputs take the coerced running
total. -/
theorem evalNodeKind_counter (e : Engine) (n : Node) (idx : Nat)
    (hT : n.type = "Counter")
    (hfind : e.nodes.find? (fun x => x.id == n.id) = some n)
    (hidx : lookupA e.nodeIndex n.id = some idx) :
    (evalNodeKind e n).1.counterLastTick = e.counterLastTick.set idx (counterTickNow e n) ∧
    (evalNodeKind e n).1.counterValue =
      e.counterValue.set idx
        (counterStep (counterTickNow e n) (e.counterLastTick.getD idx 0)
          (e.counterValue.getD idx 0)).2 ∧
    (evalNodeKind e n).2.outputs = n.outputs.map (fun op =>
      { op with value := (coerceNum op.dataType
          (counterStep (counterTickNow e n) (e.counterLastTick.getD idx 0)
            (e.counterValue.getD idx 0)).2) }) := by
  unfold evalNodeKind
  rw [if_neg (fun hc => by rw [hT] at hc; exact absurd hc (by decide)),
      if_neg (fun hc => by rw [hT] at hc; exact absurd hc (by decide)),
      if_neg (fun hc => by rw [hT] at hc; exact absurd hc (by decide)),
      if_pos (show (n.type == "Counter") = true by rw [hT]; rfl)]
  rw [hidx]
  dsimp only
  obtain ⟨ns, pv, st, hEq, hsh, hLv, hLs, h2⟩ := applyNodeWrite_spec
    { e with
        counterLastTick := e.counterLastTick.set idx
          (counterStep (counterTickNow e n) (e.counterLastTick.getD idx 0)
            (e.counterValue.getD idx 0)).1
        counterValue := e.counterValue.set idx
          (counterStep (counterTickNow e n) (e.counterLastTick.getD idx 0)
            (e.counterValue.getD idx 0)).2 }
    n
    (updatedOutputsNode n (fun op => coerceNum op.dataType
      (counterStep (counterTickNow e n) (e.counterLastTick.getD idx 0)
        (e.counterValue.getD idx 0)).2))
    (fun op => coerceNum op.dataType
      (counterStep (counterTickNow e n) (e.counterLastTick.getD idx 0)
        (e.counterValue.getD idx 0)).2)
    hfind (nodeShape_value_update n _)
  refine ⟨?_, ?_, ?_⟩
  · rw [hEq]
    rfl
  · rw [hEq]
  · rw [h2]
    rfl

/-- A `filterMap` whose hits inherit their key from the source element keeps
keys distinct whenever the source keys are distinct. -/
theorem filterMap_key_nodup {α β κ : Type _} (f : α → Option β) (key : β → κ) (g : α → κ)
    (hk : ∀ a b, f a = some b → key b = g a) :
    ∀ l : List α, (l.map g).Nodup → ((l.filterMap f).map key).Nodup
  | [], _ => by simp
  | a :: l, hnd => by
      rw [List.map_cons, List.nodup_cons] at hnd
      rw [List.filterMap_cons]
      cases hf : f a with
      | none => exact filterMap_key_nodup f key g hk l hnd.2
      | some b =>
          rw [List.map_cons, List.nodup_cons]
          refine ⟨?_, filterMap_key_nodup f key g hk l hnd.2⟩
          intro hc
          rw [List.mem_map] at hc
          obtain ⟨c, hcm, hkey⟩ := hc
          rw [List.mem_filterMap] at hcm
          obtain ⟨a2, ha2, hfa2⟩ := hcm
          refine hnd.1 ?_
          rw [List.mem_map]
          exact ⟨a2, ha2, by rw [← hk a2 c hfa2, hkey, hk a b hf]⟩

/-- A delta entry carries the (node, port) key of the descriptor that
produced it. -/
theorem deltaEntry_key (e : Engine) (w : Nat) (pd : PortDesc) (t : String × String × Val)
    (hf : deltaEntry e w pd = some t) : (t.1, t.2.1) = (pd.nodeId, pd.portId) := by
  rw [deltaEntry] at hf
  split at hf
  · cases hn : e.nodes.find? (fun n => n.id == pd.nodeId) with
    | none => rw [hn] at hf; exact absurd hf (by simp)
    | some n =>
        rw [hn] at hf
        dsimp only at hf
        cases ho : n.outputs.find? (fun op => op.id == pd.portId) with
        | none => rw [ho] at hf; exact absurd hf (by simp)
        | some op =>
            rw [ho] at hf
            rw [← Option.some.inj hf]
  · exact absurd hf (by simp)

/-- Membership characterisation of the delta walk: a triple appears exactly
when an output descriptor with its key has a stamp above the watermark and
the cached value of that node output is the reported value. -/
theorem mem_getPortDeltas_iff (e : Engine) (w : Nat) (nid pid : String) (v : Val) :
    (nid, pid, v) ∈ getPortDeltasChangedSince e w ↔
      ((∃ pd ∈ e.portDescs, pd.nodeId = nid ∧ pd.portId = pid ∧ pd.direction = "output" ∧
          pd.handle < e.portChangedStamp.length ∧
          e.portChangedStamp.getD pd.handle 0 > w) ∧
        currentOutVal e nid pid = some v) := by
  rw [getPortDeltasChangedSince, List.mem_filterMap]
  constructor
  · rintro ⟨pd, hmem, hf⟩
    rw [deltaEntry] at hf
    split at hf
    · rename_i hcond
      rw [Bool.and_eq_true, Bool.and_eq_true] at hcond
      obtain ⟨⟨hdir, hlen⟩, hgt⟩ := hcond
      cases hn : e.nodes.find? (fun n => n.id == pd.nodeId) with
      | none => rw [hn] at hf; exact absurd hf (by simp)
      | some n =>
          rw [hn] at hf
          dsimp only at hf
          cases ho : n.outputs.find? (fun op => op.id == pd.portId) with
          | none => rw [ho] at hf; exact absurd hf (by simp)
          | some op =>
              rw [ho] at hf
              obtain ⟨ha, hb, hc⟩ : pd.nodeId = nid ∧ pd.portId = pid ∧ op.value = v := by
                simpa [Prod.ext_iff] using Option.some.inj hf
              subst ha hb
              refine ⟨⟨pd, hmem, rfl, rfl, by simpa using hdir,
                of_decide_eq_true hlen, of_decide_eq_true hgt⟩, ?_⟩
              rw [currentOutVal, hn]
              dsimp only
              rw [ho]
              simp [hc]
    · exact absurd hf (by simp)
  · rintro ⟨⟨pd, hmem, ha, hb, hdir, hlen, hgt⟩, hval⟩
    subst ha hb
    refine ⟨pd, hmem, ?_⟩
    have hcond : (pd.direction == "output" && decide (pd.handle < e.portChangedStamp.length)
        && decide (e.portChangedStamp.getD pd.handle 0 > w)) = true := by
      rw [Bool.and_eq_true, Bool.and_eq_true]
      exact ⟨⟨by simp [hdir], decide_eq_true hlen⟩, decide_eq_true hgt⟩
    rw [deltaEntry, if_pos hcond]
    rw [currentOutVal] at hval
    cases hn : e.nodes.find? (fun n => n.id == pd.nodeId) with
    | none => rw [hn] at hval; exact absurd hval (by simp)
    | some n =>
        rw [hn] at hval
        dsimp only at hval ⊢
        cases ho : n.outputs.find? (fun op => op.id == pd.portId) with
        | none => rw [ho] at hval; exact absurd hval (by simp)
        | some op =>
            rw [ho] at hval
            dsimp only
            have : op.value = v := by simpa using hval
            rw [this]

theorem range'_split_my : ∀ (m k n : Nat),
    List.range' k (m + n) = List.range' k m ++ List.range' (k + m) n
  | 0, k, n => by simp
  | m + 1, k, n => by
      have h0 : m + 1 + n = (m + n) + 1 := by omega
      have h1 : k + (m + 1) = (k + 1) + m := by omega
      rw [h0, List.range'_succ, List.range'_succ, h1,
          range'_split_my m (k + 1) n, List.cons_append]

theorem numberPorts_length (nodeId : String) :
    ∀ (l : List (String × String × String)) (k : Nat),
    (numberPorts nodeId k l).length = l.length
  | [], _ => rfl
  | (pid, dir, dt) :: rest, k => by
      rw [numberPorts, List.length_cons, List.length_cons,
          numberPorts_length nodeId rest (k + 1)]

theorem numberPorts_append (nodeId : String) :
    ∀ (l1 l2 : List (String × String × String)) (k : Nat),
    numberPorts nodeId k (l1 ++ l2) =
      numberPorts nodeId k l1 ++ numberPorts nodeId (k + l1.length) l2
  | [], l2, k => by simp [numberPorts]
  | (pid, dir, dt) :: rest, l2, k => by
      rw [List.cons_append, numberPorts, numberPorts,
          numberPorts_append nodeId rest l2 (k + 1), List.cons_append,
          List.length_cons]
      have h1 : k + 1 + rest.length = k + (rest.length + 1) := by omega
      rw [h1]

theorem numberPorts_map_handle (nodeId : String) :
    ∀ (l : List (String × String × String)) (k : Nat),
    (numberPorts nodeId k l).map PortDesc.handle = List.range' k l.length
  | [], k => rfl
  | (pid, dir, dt) :: rest, k => by
      rw [numberPorts, List.map_cons, numberPorts_map_handle nodeId rest (k + 1),
          List.length_cons, List.range'_succ]

theorem specHandleAssignmentFrom_map_handle :
    ∀ (nss : List NodeSpec) (k : Nat),
    (specHandleAssignmentFrom k nss).map PortDesc.handle =
      List.range' k (specHandleAssignmentFrom k nss).length
  | [], k => rfl
  | ns :: nss, k => by
      rw [specHandleAssignmentFrom, List.map_append, numberPorts_map_handle,
          specHandleAssignmentFrom_map_handle nss (k + (specPortOrder ns).length),
          List.length_append, numberPorts_length, range'_split_my]

/-- One port-interning fold appends the contiguously numbered descriptors. -/
theorem internPort_fold_portDescs (nodeId dir : String) :
    ∀ (ps : List PortSpec) (acc : Engine),
    (ps.foldl (internPort nodeId dir) acc).portDescs =
      acc.portDescs ++
        numberPorts nodeId acc.portDescs.length (ps.map (fun p => (p.id, dir, p.dataType)))
  | [], acc => by simp [numberPorts]
  | p :: ps, acc => by
      rw [List.foldl_cons,
          internPort_fold_portDescs nodeId dir ps (internPort nodeId dir acc p)]
      have hpd : (internPort nodeId dir acc p).portDescs =
          acc.portDescs ++
            [{ handle := acc.portDescs.length, nodeId := nodeId, portId := p.id
               direction := dir, dataType := p.dataType }] := rfl
      rw [hpd, List.length_append, List.length_singleton, List.map_cons, numberPorts,
          List.append_assoc, List.singleton_append]

/-- One port-interning fold conses the key-map entries, most recent first. -/
theorem internPort_fold_keys (nodeId dir : String) :
    ∀ (ps : List PortSpec) (acc : Engine),
    (ps.foldl (internPort nodeId dir) acc).portKeyToHandle =
      (portKeys nodeId dir acc.portDescs.length ps).reverse ++ acc.portKeyToHandle
  | [], acc => by simp [portKeys]
  | p :: ps, acc => by
      rw [List.foldl_cons, internPort_fold_keys nodeId dir ps (internPort nodeId dir acc p)]
      have h1 : (internPort nodeId dir acc p).portDescs.length = acc.portDescs.length + 1 := by
        show (acc.portDescs ++ [_]).length = _
        rw [List.length_append, List.length_singleton]
      have h2 : (internPort nodeId dir acc p).portKeyToHandle =
          (nodeId ++ ":" ++ p.id ++ ":" ++ dir, acc.portDescs.length) :: acc.portKeyToHandle :=
        rfl
      rw [h1, h2, portKeys, List.reverse_cons, List.append_assoc, List.singleton_append]

theorem loadOneNode_portDescs (acc : Engine) (ns : NodeSpec) :
    (loadOneNode acc ns).portDescs =
      acc.portDescs ++ numberPorts ns.id acc.portDescs.length (specPortOrder ns) ∧
    (loadOneNode acc ns).portDescs.length =
      acc.portDescs.length + (specPortOrder ns).length := by
  have h1 := internPort_fold_portDescs ns.id "input" ns.inputs acc
  have h2 := internPort_fold_portDescs ns.id "output" ns.outputs
    (ns.inputs.foldl (internPort ns.id "input") acc)
  have hmain : (loadOneNode acc ns).portDescs =
      acc.portDescs ++ numberPorts ns.id acc.portDescs.length (specPortOrder ns) := by
    show (ns.outputs.foldl (internPort ns.id "output")
        (ns.inputs.foldl (internPort ns.id "input") acc)).portDescs = _
    rw [h2, h1, List.length_append, numberPorts_length, List.length_map,
        specPortOrder, numberPorts_append, List.append_assoc, List.length_map]
  refine ⟨hmain, ?_⟩
  rw [hmain, List.length_append, numberPorts_length]

theorem loadOneNode_keys (acc : Engine) (ns : NodeSpec) :
    (loadOneNode acc ns).portKeyToHandle =
      (portKeys ns.id "output" (acc.portDescs.length + ns.inputs.length) ns.outputs).reverse ++
        ((portKeys ns.id "input" acc.portDescs.length ns.inputs).reverse ++
          acc.portKeyToHandle) := by
  have h1 := internPort_fold_keys ns.id "input" ns.inputs acc
  have h2 := internPort_fold_keys ns.id "output" ns.outputs
    (ns.inputs.foldl (internPort ns.id "input") acc)
  have hlen : (ns.inputs.foldl (internPort ns.id "input") acc).portDescs.length =
      acc.portDescs.length + ns.inputs.length := by
    rw [internPort_fold_portDescs, List.length_append, numberPorts_length, List.length_map]
  show (ns.outputs.foldl (internPort ns.id "output")
      (ns.inputs.foldl (internPort ns.id "input") acc)).portKeyToHandle = _
  rw [h2, hlen, h1]

/-- Folding the node loader builds exactly the spec-ordered descriptor
table, numbered from the starting count. -/
theorem loadNodes_fold_portDescs :
    ∀ (nss : List NodeSpec) (acc : Engine),
    (nss.foldl loadOneNode acc).portDescs =
      acc.portDescs ++ specHandleAssignmentFrom acc.portDescs.length nss
  | [], acc => by simp [specHandleAssignmentFrom]
  | ns :: nss, acc => by
      rw [List.foldl_cons, loadNodes_fold_portDescs nss (loadOneNode acc ns),
          (loadOneNode_portDescs acc ns).1]
      have hlen2 : (acc.portDescs ++
          numberPorts ns.id acc.portDescs.length (specPortOrder ns)).length =
          acc.portDescs.length + (specPortOrder ns).length := by
        rw [List.length_append, numberPorts_length]
      rw [hlen2, specHandleAssignmentFrom, List.append_assoc]

theorem loadNodes_fold_keys :
    ∀ (nss : List NodeSpec) (acc : Engine),
    (nss.foldl loadOneNode acc).portKeyToHandle =
      nodeKeysAcc acc.portDescs.length nss ++ acc.portKeyToHandle
  | [], acc => by simp [nodeKeysAcc]
  | ns :: nss, acc => by
      rw [List.foldl_cons, loadNodes_fold_keys nss (loadOneNode acc ns),
          (loadOneNode_portDescs acc ns).2, loadOneNode_keys, nodeKeysAcc,
          List.append_assoc, List.append_assoc]

/-- Connection validation never touches the handle tables. -/
theorem loadOneConnection_frame (e : Engine) (c : Connection) :
    (loadOneConnection e c).1.portDescs = e.portDescs ∧
    (loadOneConnection e c).1.portKeyToHandle = e.portKeyToHandle := by
  unfold loadOneConnection
  cases e.nodes.find? (fun n => n.id == c.fromNode) with
  | none => exact ⟨rfl, rfl⟩
  | some fn =>
      cases e.nodes.find? (fun n => n.id == c.toNode) with
      | none => exact ⟨rfl, rfl⟩
      | some tn =>
          dsimp only
          cases fn.outputs.find? (fun p => p.id == c.fromPort) with
          | none => exact ⟨rfl, rfl⟩
          | some fp =>
              cases tn.inputs.find? (fun p => p.id == c.toPort) with
              | none => exact ⟨rfl, rfl⟩
              | some tp =>
                  dsimp only
                  split
                  · exact ⟨rfl, rfl⟩
                  · exact ⟨rfl, rfl⟩

theorem loadConnections_frame :
    ∀ (cs : List Connection) (e : Engine),
    (loadConnections e cs).1.portDescs = e.portDescs ∧
    (loadConnections e cs).1.portKeyToHandle = e.portKeyToHandle
  | [], e => ⟨rfl, rfl⟩
  | c :: cs, e => by
      rw [loadConnections]
      cases hc : loadOneConnection e c with
      | mk e1 r =>
          have hfr := loadOneConnection_frame e c
          rw [hc] at hfr
          cases r with
          | none =>
              dsimp only
              obtain ⟨ih1, ih2⟩ := loadConnections_frame cs e1
              exact ⟨ih1.trans hfr.1, ih2.trans hfr.2⟩
          | some err =>
              exact hfr

theorem computeExecutionOrder_frame (e : Engine) :
    (computeExecutionOrder e).1.portDescs = e.portDescs ∧
    (computeExecutionOrder e).1.portKeyToHandle = e.portKeyToHandle := by
  unfold computeExecutionOrder
  dsimp only
  split
  · exact ⟨rfl, rfl⟩
  · exact ⟨rfl, rfl⟩

theorem rebuildAdjacency_frame (e : Engine) :
    (rebuildAdjacency e).portDescs = e.portDescs ∧
    (rebuildAdjacency e).portKeyToHandle = e.portKeyToHandle := by
  unfold rebuildAdjacency
  dsimp only
  refine foldl_inv
    (P := fun x => x.portDescs = e.portDescs ∧ x.portKeyToHandle = e.portKeyToHandle)
    ?_ _ _ ⟨rfl, rfl⟩
  intro x c hp
  cases getPortHandle x c.fromNode c.fromPort "output" with
  | none => exact hp
  | some hOut =>
      cases getPortHandle x c.toNode c.toPort "input" with
      | none => exact hp
      | some hIn =>
          by_cases hc : hOut < x.outToIn.length
          · simp only [if_pos hc]
            exact hp
          · simp only [if_neg hc]
            exact hp

/-- The handle tables of a load are a function of the description alone:
the spec-ordered descriptors and the consed key map. -/
theorem loadFromJson_tables (e : Engine) (d : Description) :
    (loadFromJson e d).1.portDescs = specHandleAssignment d ∧
    (loadFromJson e d).1.portKeyToHandle = nodeKeysAcc 0 d.nodes := by
  unfold loadFromJson
  dsimp only
  have hbase1 :
      (d.nodes.foldl loadOneNode
        { e with nodes := [], connections := [], portDescs := [], portKeyToHandle := []
                 portChangedStamp := [], portValues := [], outToIn := [] }).portDescs =
        specHandleAssignment d := by
    rw [loadNodes_fold_portDescs]
    rfl
  have hbase2 :
      (d.nodes.foldl loadOneNode
        { e with nodes := [], connections := [], portDescs := [], portKeyToHandle := []
                 portChangedStamp := [], portValues := [], outToIn := [] }).portKeyToHandle =
        nodeKeysAcc 0 d.nodes := by
    rw [loadNodes_fold_keys]
    show nodeKeysAcc 0 d.nodes ++ [] = nodeKeysAcc 0 d.nodes
    rw [List.append_nil]
  split
  · rename_i e3 err heq
    have h1 := congrArg (fun p => p.1.portDescs) heq
    have h2 := congrArg (fun p => p.1.portKeyToHandle) heq
    dsimp only at h1 h2
    obtain ⟨hf1, hf2⟩ := loadConnections_frame d.connections _
    constructor
    · rw [← h1, hf1]
      exact hbase1
    · rw [← h2, hf2]
      exact hbase2
  · rename_i e3 heq
    have h1 := congrArg (fun p => p.1.portDescs) heq
    have h2 := congrArg (fun p => p.1.portKeyToHandle) heq
    dsimp only at h1 h2
    obtain ⟨hf1, hf2⟩ := loadConnections_frame d.connections _
    have he3a : e3.portDescs = specHandleAssignment d := by
      rw [← h1, hf1]
      exact hbase1
    have he3b : e3.portKeyToHandle = nodeKeysAcc 0 d.nodes := by
      rw [← h2, hf2]
      exact hbase2
    split
    · rename_i e4 err heq2
      have h3 := congrArg (fun p => p.1.portDescs) heq2
      have h4 := congrArg (fun p => p.1.portKeyToHandle) heq2
      dsimp only at h3 h4
      obtain ⟨hg1, hg2⟩ := computeExecutionOrder_frame e3
      exact ⟨(h3.symm.trans hg1).trans he3a, (h4.symm.trans hg2).trans he3b⟩
    · rename_i e4 heq2
      have h3 := congrArg (fun p => p.1.portDescs) heq2
      have h4 := congrArg (fun p => p.1.portKeyToHandle) heq2
      dsimp only at h3 h4
      obtain ⟨hg1, hg2⟩ := computeExecutionOrder_frame e3
      obtain ⟨hr1, hr2⟩ := rebuildAdjacency_frame e4
      exact ⟨(hr1.trans ((h3.symm.trans hg1))).trans he3a,
             (hr2.trans ((h4.symm.trans hg2))).trans he3b⟩

/-- Each slot after a propagation write-out keeps its value or holds the
propagated value. -/
theorem foldPV_or (v : Val) :
    ∀ (L : List Nat) (x : Engine) (h0 : Nat),
    ((L.foldl
        (fun (acc : Engine) (hIn : Nat) =>
          if hIn < acc.portValues.length then
            { acc with portValues := acc.portValues.set hIn v }
          else acc) x).portValues.getD h0 (.i 0) = x.portValues.getD h0 (.i 0)) ∨
    ((L.foldl
        (fun (acc : Engine) (hIn : Nat) =>
          if hIn < acc.portValues.length then
            { acc with portValues := acc.portValues.set hIn v }
          else acc) x).portValues.getD h0 (.i 0) = v)
  | [], _, _ => Or.inl rfl
  | hIn :: rest, x, h0 => by
      rw [List.foldl_cons]
      have hstep :
          ((if hIn < x.portValues.length then
              { x with portValues := x.portValues.set hIn v }
            else x).portValues.getD h0 (.i 0) = x.portValues.getD h0 (.i 0)) ∨
          ((if hIn < x.portValues.length then
              { x with portValues := x.portValues.set hIn v }
            else x).portValues.getD h0 (.i 0) = v) := by
        split
        · rename_i hlt
          by_cases he : hIn = h0
          · subst he
            exact Or.inr (getD_set_self _ _ _ hlt)
          · exact Or.inl (getD_set_ne _ _ _ he)
        · exact Or.inl rfl
      rcases foldPV_or v rest (if hIn < x.portValues.length then
          { x with portValues := x.portValues.set hIn v }
        else x) h0 with hor | hor
      · rcases hstep with h2 | h2
        · exact Or.inl (hor.trans h2)
        · exact Or.inr (hor.trans h2)
      · exact Or.inr hor

/-- A listed in-range destination slot holds the propagated value after the
write-out. -/
theorem foldPV_write (v : Val) :
    ∀ (L : List Nat) (x : Engine) (h0 : Nat), h0 ∈ L → h0 < x.portValues.length →
    (L.foldl
        (fun (acc : Engine) (hIn : Nat) =>
          if hIn < acc.portValues.length then
            { acc with portValues := acc.portValues.set hIn v }
          else acc) x).portValues.getD h0 (.i 0) = v
  | [], _, _, hm, _ => absurd hm (by simp)
  | hIn :: rest, x, h0, hm, hlen => by
      rw [List.foldl_cons]
      by_cases he : h0 = hIn
      · subst he
        have hbase : (if h0 < x.portValues.length then
              { x with portValues := x.portValues.set h0 v }
            else x).portValues.getD h0 (.i 0) = v := by
          rw [if_pos hlen]
          exact getD_set_self _ _ _ hlen
        rcases foldPV_or v rest (if h0 < x.portValues.length then
            { x with portValues := x.portValues.set h0 v }
          else x) h0 with hor | hor
        · exact hor.trans hbase
        · exact hor
      · have hm2 : h0 ∈ rest := by
          rcases List.mem_cons.mp hm with hc | hc
          · exact absurd hc he
          · exact hc
        have hlen2 : h0 < (if hIn < x.portValues.length then
            { x with portValues := x.portValues.set hIn v }
          else x).portValues.length := by
          split
          · show h0 < (x.portValues.set hIn v).length
            rw [List.length_set]
            exact hlen
          · exact hlen
        exact foldPV_write v rest _ h0 hm2 hlen2

theorem propagateRaw_getD_or (x : Engine) (h : Nat) (v : Val) (h0 : Nat) :
    ((propagateRaw x h v).portValues.getD h0 (.i 0) = x.portValues.getD h0 (.i 0)) ∨
    ((propagateRaw x h v).portValues.getD h0 (.i 0) = v) := by
  unfold propagateRaw
  exact foldPV_or v _ x h0

theorem propagateRaw_write_mem (x : Engine) (h : Nat) (v : Val) (hIn : Nat)
    (hm : hIn ∈ x.outToIn.getD h []) (hlen : hIn < x.portValues.length) :
    (propagateRaw x h v).portValues.getD hIn (.i 0) = v := by
  unfold propagateRaw
  exact foldPV_write v _ x hIn hm hlen

/-- Normal form of the `setNodeValue` arena-write loop body: only port
values and stamps change, and every touched slot takes the float. -/
theorem setPortTo_spec (nodeId : String) (v : Rat) (acc : Engine) (op : Port) :
    ∃ pv st,
      setPortTo nodeId v acc op = { acc with portValues := pv, portChangedStamp := st } ∧
      pv.length = acc.portValues.length ∧
      (∀ h0, pv.getD h0 (.i 0) = acc.portValues.getD h0 (.i 0) ∨
        pv.getD h0 (.i 0) = Val.f v) := by
  unfold setPortTo
  cases hg : getPortHandle acc nodeId op.id "output" with
  | none =>
      exact ⟨acc.portValues, acc.portChangedStamp, rfl, rfl, fun _ => Or.inl rfl⟩
  | some h =>
      dsimp only
      split
      · rename_i hlt
        split
        · rename_i hst
          obtain ⟨pv, hEq, hLen⟩ := propagateRaw_spec
            { acc with
                portValues := acc.portValues.set h (.f v)
                portChangedStamp := acc.portChangedStamp.set h acc.evalGeneration } h (.f v)
          have hor0 := propagateRaw_getD_or
            { acc with
                portValues := acc.portValues.set h (.f v)
                portChangedStamp := acc.portChangedStamp.set h acc.evalGeneration } h (.f v)
          refine ⟨pv, acc.portChangedStamp.set h acc.evalGeneration, ?_, ?_, ?_⟩
          · rw [hEq]
          · have := hLen
            rw [List.length_set] at this
            exact this
          · intro h0
            have hor := hor0 h0
            rw [hEq] at hor
            rcases hor with hor | hor
            · by_cases he : h = h0
              · subst he
                exact Or.inr (hor.trans (getD_set_self _ _ _ hlt))
              · exact Or.inl (hor.trans (getD_set_ne _ _ _ he))
            · exact Or.inr hor
        · rename_i hst
          obtain ⟨pv, hEq, hLen⟩ := propagateRaw_spec
            { acc with portValues := acc.portValues.set h (.f v) } h (.f v)
          have hor0 := propagateRaw_getD_or
            { acc with portValues := acc.portValues.set h (.f v) } h (.f v)
          refine ⟨pv, acc.portChangedStamp, ?_, ?_, ?_⟩
          · rw [hEq]
          · have := hLen
            rw [List.length_set] at this
            exact this
          · intro h0
            have hor := hor0 h0
            rw [hEq] at hor
            rcases hor with hor | hor
            · by_cases he : h = h0
              · subst he
                exact Or.inr (hor.trans (getD_set_self _ _ _ hlt))
              · exact Or.inl (hor.trans (getD_set_ne _ _ _ he))
            · exact Or.inr hor
      · exact ⟨acc.portValues, acc.portChangedStamp, rfl, rfl, fun _ => Or.inl rfl⟩

/-- The arena-write fold only rewrites port values and stamps; each slot
keeps its value or takes the float. -/
theorem setPortTo_fold_inv (nodeId : String) (v : Rat) (outs : List Port) (x : Engine) :
    (outs.foldl (setPortTo nodeId v) x).nodes = x.nodes ∧
    (outs.foldl (setPortTo nodeId v) x).portKeyToHandle = x.portKeyToHandle ∧
    (outs.foldl (setPortTo nodeId v) x).outToIn = x.outToIn ∧
    (outs.foldl (setPortTo nodeId v) x).portValues.length = x.portValues.length ∧
    (∀ h0, (outs.foldl (setPortTo nodeId v) x).portValues.getD h0 (.i 0) =
        x.portValues.getD h0 (.i 0) ∨
      (outs.foldl (setPortTo nodeId v) x).portValues.getD h0 (.i 0) = Val.f v) := by
  refine foldl_inv
    (P := fun y => y.nodes = x.nodes ∧ y.portKeyToHandle = x.portKeyToHandle ∧
      y.outToIn = x.outToIn ∧ y.portValues.length = x.portValues.length ∧
      (∀ h0, y.portValues.getD h0 (.i 0) = x.portValues.getD h0 (.i 0) ∨
        y.portValues.getD h0 (.i 0) = Val.f v))
    ?_ _ _ ⟨rfl, rfl, rfl, rfl, fun _ => Or.inl rfl⟩
  intro y op hp
  obtain ⟨pv, st, hEq, hLen, hor⟩ := setPortTo_spec nodeId v y op
  rw [hEq]
  refine ⟨hp.1, hp.2.1, hp.2.2.1, ?_, ?_⟩
  · show pv.length = x.portValues.length
    rw [hLen]
    exact hp.2.2.2.1
  · intro h0
    show pv.getD h0 (.i 0) = _ ∨ pv.getD h0 (.i 0) = _
    rcases hor h0 with h2 | h2
    · rcases hp.2.2.2.2 h0 with h3 | h3
      · exact Or.inl (h2.trans h3)
      · exact Or.inr (h2.trans h3)
    · exact Or.inr h2

/-- The loop body stores the float in the looked-up output slot. -/
theorem setPortTo_write_self (nodeId : String) (v : Rat) (x : Engine) (op : Port) (h : Nat)
    (hget : getPortHandle x nodeId op.id "output" = some h)
    (hlen : h < x.portValues.length) :
    (setPortTo nodeId v x op).portValues.getD h (.i 0) = Val.f v := by
  unfold setPortTo
  rw [hget]
  dsimp only
  rw [if_pos hlen]
  split
  · rcases propagateRaw_getD_or
      { x with
          portValues := x.portValues.set h (.f v)
          portChangedStamp := x.portChangedStamp.set h x.evalGeneration } h (.f v) h
      with hor | hor
    · exact hor.trans (getD_set_self _ _ _ hlen)
    · exact hor
  · rcases propagateRaw_getD_or
      { x with portValues := x.portValues.set h (.f v) } h (.f v) h with hor | hor
    · exact hor.trans (getD_set_self _ _ _ hlen)
    · exact hor

/-- The loop body stores the float in every connected downstream input
slot of the looked-up output. -/
theorem setPortTo_write_down (nodeId : String) (v : Rat) (x : Engine) (op : Port)
    (h hIn : Nat)
    (hget : getPortHandle x nodeId op.id "output" = some h)
    (hlen : h < x.portValues.length)
    (hm : hIn ∈ x.outToIn.getD h [])
    (hlen2 : hIn < x.portValues.length) :
    (setPortTo nodeId v x op).portValues.getD hIn (.i 0) = Val.f v := by
  unfold setPortTo
  rw [hget]
  dsimp only
  rw [if_pos hlen]
  split
  · exact propagateRaw_write_mem
      { x with
          portValues := x.portValues.set h (.f v)
          portChangedStamp := x.portChangedStamp.set h x.evalGeneration } h (.f v) hIn hm
      (by show hIn < (x.portValues.set h (.f v)).length; rw [List.length_set]; exact hlen2)
  · exact propagateRaw_write_mem
      { x with portValues := x.portValues.set h (.f v) } h (.f v) hIn hm
      (by show hIn < (x.portValues.set h (.f v)).length; rw [List.length_set]; exact hlen2)

/-- Across the whole arena-write fold, the slot of a listed output holds
the float. -/
theorem setPortTo_fold_write (nodeId : String) (v : Rat) :
    ∀ (outs : List Port) (x : Engine) (op : Port) (h : Nat),
    op ∈ outs →
    getPortHandle x nodeId op.id "output" = some h →
    h < x.portValues.length →
    (outs.foldl (setPortTo nodeId v) x).portValues.getD h (.i 0) = Val.f v
  | [], _, _, _, hm, _, _ => absurd hm (by simp)
  | o :: outs, x, op, h, hm, hget, hlen => by
      rw [List.foldl_cons]
      obtain ⟨pv, st, hEq, hLen, hor⟩ := setPortTo_spec nodeId v x o
      by_cases he : op = o
      · subst he
        have hbase : (setPortTo nodeId v x op).portValues.getD h (.i 0) = Val.f v :=
          setPortTo_write_self nodeId v x op h hget hlen
        rcases (setPortTo_fold_inv nodeId v outs (setPortTo nodeId v x op)).2.2.2.2 h
          with h2 | h2
        · exact h2.trans hbase
        · exact h2
      · have hm2 : op ∈ outs := by
          rcases List.mem_cons.mp hm with hc | hc
          · exact absurd hc he
          · exact hc
        have hget2 : getPortHandle (setPortTo nodeId v x o) nodeId op.id "output" = some h := by
          rw [hEq]
          exact hget
        have hlen3 : h < (setPortTo nodeId v x o).portValues.length := by
          rw [hEq]
          show h < pv.length
          rw [hLen]
          exact hlen
        exact setPortTo_fold_write nodeId v outs _ op h hm2 hget2 hlen3

/-- Across the whole arena-write fold, every downstream input slot of a
listed output holds the float. -/
theorem setPortTo_fold_down (nodeId : String) (v : Rat) :
    ∀ (outs : List Port) (x : Engine) (op : Port) (h hIn : Nat),
    op ∈ outs →
    getPortHandle x nodeId op.id "output" = some h →
    h < x.portValues.length →
    hIn ∈ x.outToIn.getD h [] →
    hIn < x.portValues.length →
    (outs.foldl (setPortTo nodeId v) x).portValues.getD hIn (.i 0) = Val.f v
  | [], _, _, _, _, hm, _, _, _, _ => absurd hm (by simp)
  | o :: outs, x, op, h, hIn, hm, hget, hlen, hmem, hlen2 => by
      rw [List.foldl_cons]
      obtain ⟨pv, st, hEq, hLen, hor⟩ := setPortTo_spec nodeId v x o
      by_cases he : op = o
      · subst he
        have hbase : (setPortTo nodeId v x op).portValues.getD hIn (.i 0) = Val.f v :=
          setPortTo_write_down nodeId v x op h hIn hget hlen hmem hlen2
        rcases (setPortTo_fold_inv nodeId v outs (setPortTo nodeId v x op)).2.2.2.2 hIn
          with h2 | h2
        · exact h2.trans hbase
        · exact h2
      · have hm2 : op ∈ outs := by
          rcases List.mem_cons.mp hm with hc | hc
          · exact absurd hc he
          · exact hc
        have hget2 : getPortHandle (setPortTo nodeId v x o) nodeId op.id "output" = some h := by
          rw [hEq]
          exact hget
        have hlen3 : h < (setPortTo nodeId v x o).portValues.length := by
          rw [hEq]
          show h < pv.length
          rw [hLen]
          exact hlen
        have hmem2 : hIn ∈ (setPortTo nodeId v x o).outToIn.getD h [] := by
          rw [hEq]
          exact hmem
        have hlen4 : hIn < (setPortTo nodeId v x o).portValues.length := by
          rw [hEq]
          show hIn < pv.length
          rw [hLen]
          exact hlen2
        exact setPortTo_fold_down nodeId v outs _ op h hIn hm2 hget2 hlen3 hmem2 hlen4

theorem stampPort_frame (nodeId : String) (acc : Engine) (op : Port) :
    ∃ st, stampPort nodeId acc op = { acc with portChangedStamp := st } := by
  unfold stampPort
  cases getPortHandle acc nodeId op.id "output" with
  | none => exact ⟨acc.portChangedStamp, rfl⟩
  | some h =>
      dsimp only
      split
      · exact ⟨acc.portChangedStamp.set h acc.evalGeneration, rfl⟩
      · exact ⟨acc.portChangedStamp, rfl⟩

theorem stampPort_fold_frame (nodeId : String) (outs : List Port) (x : Engine) :
    (outs.foldl (stampPort nodeId) x).portValues = x.portValues ∧
    (outs.foldl (stampPort nodeId) x).nodes = x.nodes := by
  refine foldl_inv (P := fun y => y.portValues = x.portValues ∧ y.nodes = x.nodes)
    ?_ _ _ ⟨rfl, rfl⟩
  intro y op hp
  obtain ⟨st, hEq⟩ := stampPort_frame nodeId y op
  rw [hEq]
  exact hp

/-! ## Claim theorems -/

/-- C1.  The parity requirement between the interpreter and the library
emitted by `generateStepLibrary` fails: on the single-Timer graph
(interval 100 ms), the sequence `tick(150); tick(0)` leaves the
interpreter's pulse port at one (the interpreter treats `dt ≤ 0` as a
no-op, NodeFlowCore.cpp:559), while the generated `nodeflow_tick` has no
such guard and resets the pulse field to zero, so `nodeflow_get_output`
reports zero: the multisets of (port_handle, value) pairs differ. -/
theorem C1_aot_parity_divergence :
    (loadFromJson emptyEngine descTimer1).2 = none
    ∧ interpObs (runInterp engTimer1 [.tick 150, .tick 0]) = [(0, 1)]
    ∧ aotObs engTimer1 (runAot engTimer1 (aotMachineInit engTimer1) [.tick 150, .tick 0]) = [(0, 0)]
    ∧ (↑(interpObs (runInterp engTimer1 [.tick 150, .tick 0])) : Multiset (Nat × Rat)) ≠
        ↑(aotObs engTimer1 (runAot engTimer1 (aotMachineInit engTimer1) [.tick 150, .tick 0])) := by
  refine ⟨by decide, by decide, by decide, by decide⟩

/-- C2 counterexample.  The first `evaluate()` after load does not set every
output-port stamp to 1: the evaluation generation starts at 1 and is
pre-incremented, so handled nodes are stamped 2 (shown on the Add graph),
and a Timer node's output is not stamped at all during `evaluate()` (shown
on the single-Timer graph, where the stamp stays 0). -/
theorem C2_first_evaluate_stamp_counterexample :
    (loadFromJson emptyEngine descTimer1).2 = none
    ∧ getPortHandle engTimer1 "m" "out1" "output" = some 0
    ∧ engTimer1.evalGeneration = 1 ∧ engTimer1.coldStart = true
    ∧ (execute engTimer1).portChangedStamp.getD 0 0 = 0
    ∧ (loadFromJson emptyEngine descAdd3).2 = none
    ∧ getPortHandle engAdd3 "a" "out1" "output" = some 0
    ∧ (execute engAdd3).portChangedStamp.getD 0 0 = 2 := by
  refine ⟨by decide, by decide, by decide, by decide, by decide, by decide, by decide, by decide⟩

/-- C2 amended.  On a cold-start engine whose evaluation generation is
still the initial 1, the first `evaluate()` stamps every valid output
handle of every Value / DeviceTrigger / Add / Counter node with
generation 2 — even when the value written is unchanged.  The hypotheses
(distinct node identifiers, coverage of the node by the execution order, a
node-index entry when the node is a Counter, handles in range) hold for
every successfully loaded graph, as the witness shows on a concrete one. -/
theorem C2_first_evaluate_stamps_generation_two
    (e : Engine) (n : Node) (op : Port) (h : Nat)
    (hgen : e.evalGeneration = 1)
    (hcold : e.coldStart = true)
    (hnodup : (e.nodes.map Node.id).Nodup)
    (hmem : n ∈ e.nodes)
    (hcover : n.id ∈ e.executionOrder)
    (htype : n.type = "Value" ∨ n.type = "DeviceTrigger" ∨ n.type = "Add" ∨ n.type = "Counter")
    (hidx : n.type = "Counter" → (lookupA e.nodeIndex n.id).isSome)
    (hop : op ∈ n.outputs)
    (hget : getPortHandle e n.id op.id "output" = some h)
    (hv : h < e.portValues.length) (hs : h < e.portChangedStamp.length) :
    (execute e).portChangedStamp.getD h 0 = 2 := by
  unfold execute
  dsimp only
  rw [if_pos hcold]
  obtain ⟨pv1, hseed, hseedLen⟩ :=
    seedColdStart_spec { e with evalGeneration := e.evalGeneration + 1 }
  rw [hseed]
  dsimp only
  obtain ⟨l1, l2, hsplit⟩ := List.append_of_mem hcover
  set E1 : Engine := { e with evalGeneration := e.evalGeneration + 1, portValues := pv1 }
    with hE1
  rw [hsplit, List.foldl_append, List.foldl_cons]
  have hstage1 := foldl_inv
    (P := fun x => x.nodes.map nodeShape = e.nodes.map nodeShape ∧
      x.portKeyToHandle = e.portKeyToHandle ∧
      x.nodeIndex = e.nodeIndex ∧
      x.evalGeneration = e.evalGeneration + 1 ∧
      x.portValues.length = e.portValues.length ∧
      x.portChangedStamp.length = e.portChangedStamp.length)
    (f := processNode)
    (fun x id hx => by
      obtain ⟨ns, pv, st, cl, cv, ocs, q, rs, hEq, hsh, hLv, hLs⟩ := processNode_spec x id
      rw [hEq]
      exact ⟨hsh.trans hx.1, hx.2.1, hx.2.2.1, hx.2.2.2.1,
        hLv.trans hx.2.2.2.2.1, hLs.trans hx.2.2.2.2.2⟩)
    l1
    { e with evalGeneration := e.evalGeneration + 1, portValues := pv1 }
    ⟨rfl, rfl, rfl, rfl, hseedLen, rfl⟩
  obtain ⟨hshA, hkeyA, hniA, hgenA, hLvA, hLsA⟩ := hstage1
  have hfind0 : e.nodes.find? (fun x => x.id == n.id) = some n :=
    find_first_of_nodup e.nodes n hnodup hmem
  obtain ⟨n', hfindA, hshn⟩ := find?_shape_transfer
    (List.foldl processNode
      { e with evalGeneration := e.evalGeneration + 1, portValues := pv1 } l1).nodes
    e.nodes n.id n hshA hfind0
  obtain ⟨hid', htype', hsig'⟩ := nodeShape_eq_parts hshn
  obtain ⟨op', hop', hopid, hopdt⟩ := outputs_sig_transfer hsig' hop
  have hgetA : getPortHandle
      (List.foldl processNode
        { e with evalGeneration := e.evalGeneration + 1, portValues := pv1 } l1)
      n'.id op'.id "output" = some h := by
    simp only [getPortHandle] at hget ⊢
    rw [hkeyA, hid', hopid]
    exact hget
  have hfindA' : (List.foldl processNode
      { e with evalGeneration := e.evalGeneration + 1, portValues := pv1 } l1).nodes.find?
        (fun x => x.id == n'.id) = some n' := by
    rw [hid']
    exact hfindA
  have htypeN' : n'.type = "Value" ∨ n'.type = "DeviceTrigger" ∨ n'.type = "Add" ∨
      n'.type = "Counter" := by
    rw [htype']
    exact htype
  have hidxN' : n'.type = "Counter" → (lookupA
      (List.foldl processNode
        { e with evalGeneration := e.evalGeneration + 1, portValues := pv1 } l1).nodeIndex
      n'.id).isSome := by
    rw [htype', hniA, hid']
    exact hidx
  have hstamp := processNode_stamps
    (List.foldl processNode
      { e with evalGeneration := e.evalGeneration + 1, portValues := pv1 } l1)
    n' op' h hfindA' htypeN' hidxN' hop' hgetA
    (by rw [hLvA]; exact hv)
    (by rw [hLsA]; exact hs)
  have hpn : processNode
      (List.foldl processNode
        { e with evalGeneration := e.evalGeneration + 1, portValues := pv1 } l1) n.id =
    processNode
      (List.foldl processNode
        { e with evalGeneration := e.evalGeneration + 1, portValues := pv1 } l1) n'.id := by
    rw [hid']
  have hstage3 := foldl_inv
    (P := fun x => x.portChangedStamp.getD h 0 = e.evalGeneration + 1 ∧
      x.evalGeneration = e.evalGeneration + 1)
    (f := processNode)
    (fun x id hx => by
      refine ⟨?_, (processNode_evalGeneration x id).trans hx.2⟩
      rcases processNode_stamp_getD x id h with hA | hA
      · exact hA.trans hx.1
      · exact hA.trans hx.2)
    l2
    (processNode
      (List.foldl processNode
        { e with evalGeneration := e.evalGeneration + 1, portValues := pv1 } l1) n.id)
    ⟨by rw [hpn]; exact hstamp.trans hgenA,
     by rw [hpn, processNode_evalGeneration]; exact hgenA⟩
  exact hstage3.1.trans (by rw [hgen])

/-- C2 witness: the amended statement applied to the loaded Add graph — the
first evaluate stamps node `a`'s output (handle 0) with generation 2. -/
theorem C2_witness : (execute engAdd3).portChangedStamp.getD 0 0 = 2 :=
  C2_first_evaluate_stamps_generation_two engAdd3 nodeA
    { id := "out1", dataType := "float", value := .f 0 } 0
    (by decide) (by decide) (by decide) (by decide) (by decide)
    (Or.inr (Or.inl rfl)) (by decide) (by decide) (by decide) (by decide) (by decide)

/-- C4.  During `evaluate()`, after a node is evaluated its forward
dependents are enqueued exactly when the node's primary output compares
unequal (`valNe`: exact for i32, value comparison for f32/f64, byte
comparison for strings, any change of variant) to its value at entry: on a
change `processNode` is the dependents-enqueue applied to the evaluated
engine, and without a change the ready queue and ready stamps are left
untouched.  Consequently, on the three-input Add graph, the sequence
`set_input(a,1); evaluate(); set_input(a,1); evaluate()` leaves the delta
since the first evaluate's watermark empty. -/
theorem C4_enqueue_iff_primary_output_changed :
    (∀ (e : Engine) (id : String) (n : Node),
      e.nodes.find? (fun x => x.id == id) = some n →
      (primaryChanged n (evalNodeKind e n).2 = true →
        processNode e id =
          enqueueDependents
            { (evalNodeKind e n).1 with
                outputChangedStamp :=
                  (n.id, e.evalGeneration) :: (evalNodeKind e n).1.outputChangedStamp }
            n.id) ∧
      (primaryChanged n (evalNodeKind e n).2 = false →
        processNode e id = (evalNodeKind e n).1 ∧
        (processNode e id).readyQueue = e.readyQueue ∧
        (processNode e id).readyStamp = e.readyStamp)) ∧
    getPortDeltasChangedSince
        (runInterp (runInterp engAdd3 [.setInput "a" 1, .step]) [.setInput "a" 1, .step])
        (runInterp engAdd3 [.setInput "a" 1, .step]).evalGeneration = [] := by
  constructor
  · intro e id n hfind
    have hid : n.id = id := by simpa using List.find?_some hfind
    subst hid
    obtain ⟨ns, pv, st, cl, cv, hEq, hsh, hLv, hLs, hsh2⟩ := evalNodeKind_spec e n hfind
    constructor
    · intro hch
      unfold processNode
      rw [hfind]
      dsimp only
      rw [if_pos hch, hEq]
    · intro hch
      unfold processNode
      rw [hfind]
      dsimp only
      rw [if_neg (by simp [hch])]
      rw [hEq]
      exact ⟨rfl, rfl, rfl⟩
  · decide

/-- C4 witness: the general clause applied to the freshly loaded Add graph
at node `a`, whose primary output is unchanged, so nothing is enqueued. -/
theorem C4_witness :
    processNode engAdd3 "a" = (evalNodeKind engAdd3 nodeA).1 ∧
    (processNode engAdd3 "a").readyQueue = engAdd3.readyQueue ∧
    (processNode engAdd3 "a").readyStamp = engAdd3.readyStamp :=
  (C4_enqueue_iff_primary_output_changed.1 engAdd3 "a" nodeA (by decide)).2 (by decide)

/-- C3 counterexample.  A failed load does not leave the engine in its
previous state: loading the mismatched description over an engine that held
the one-node graph `descTiny` reports the type-mismatch error but leaves
the two new nodes installed (`nodes` differs from the previous state). -/
theorem C3_failed_load_state_counterexample :
    (loadFromJson engTiny descMismatch).2 = some .typeMismatch
    ∧ (loadFromJson engTiny descMismatch).1.nodes.map Node.id = ["a", "b"]
    ∧ engTiny.nodes.map Node.id = ["x"]
    ∧ (loadFromJson engTiny descMismatch).1 ≠ engTiny := by
  refine ⟨by decide, by decide, by decide, by decide⟩

/-- C3 amended.  A load-time error aborts the load and is reported, but the
engine keeps the partially installed graph (the previous tables were
cleared at entry; the stale execution order survives because the throw
happens before it is recomputed); and `evaluate()` on a never-loaded engine
evaluates no node: it only advances the generation and clears the
cold-start flag, and the snapshot stays empty. -/
theorem C3_failed_load_partial_state :
    ((loadFromJson engTiny descMismatch).2 = some .typeMismatch
      ∧ (loadFromJson engTiny descMismatch).1.nodes.map Node.id = ["a", "b"]
      ∧ (loadFromJson engTiny descMismatch).1.connections = []
      ∧ (loadFromJson engTiny descMismatch).1.executionOrder = engTiny.executionOrder)
    ∧ (∀ e : Engine, e.nodes = [] → e.portDescs = [] → e.executionOrder = [] →
        e.readyQueue = [] →
        execute e = { e with evalGeneration := e.evalGeneration + 1, coldStart := false }
        ∧ getOutputs (execute e) = []) := by
  refine ⟨⟨by decide, by decide, by decide, by decide⟩, ?_⟩
  rintro ⟨ns, cs, xo, pds, pk, pv, st, oi, dep, ti, ni, rq, rs, ocs, g, sg, cold, ta, cl, cv⟩ h1 h2 h3 h4
  simp only [] at h1 h2 h3 h4
  subst h1 h2 h3 h4
  cases cold <;> exact ⟨rfl, rfl⟩

/-- C3 witness: the general no-op clause instantiated at the freshly
constructed engine. -/
theorem C3_witness :
    execute emptyEngine =
      { emptyEngine with evalGeneration := 2, coldStart := false }
    ∧ getOutputs (execute emptyEngine) = [] :=
  C3_failed_load_partial_state.2 emptyEngine rfl rfl rfl rfl

/-- C5 counterexample.  `tick` skips a Timer whose output list is empty
(NodeFlowCore.cpp:563 `n.outputs.empty() → continue`), so for such a node a
positive dt does not add to the accumulator, contradicting the claim as
stated for every Timer with a positive `interval_ms`. -/
theorem C5_timer_no_output_counterexample :
    (loadFromJson emptyEngine descTimerNoOut).2 = none
    ∧ (engTimerNoOut.nodes.getD 0 dummyNode).type = "Timer"
    ∧ timerInterval (engTimerNoOut.nodes.getD 0 dummyNode) = 100
    ∧ (0 : Rat) < 50
    ∧ (tick engTimerNoOut 50).timerAccumMs.getD 0 0 ≠
        engTimerNoOut.timerAccumMs.getD 0 0 + 50 := by
  refine ⟨by decide, by decide, by decide, by decide, by decide⟩

/-- C8 counterexample.  A description with two nodes of the same identifier
does not fail with any error — `loadFromJson` has no duplicate-id check —
and both nodes are installed. -/
theorem C8_duplicate_id_counterexample :
    (loadFromJson emptyEngine descDup).2 = none
    ∧ (loadFromJson emptyEngine descDup).1.nodes.map Node.id = ["a", "a"] := by
  refine ⟨by decide, by decide⟩

/-- C8 amended.  Duplicate node identifiers are accepted: the load succeeds,
installs both nodes, and the later node's key-map entries shadow the
earlier one's, so the handle lookup for the shared name resolves to the
second node's port (handle 1, not 0). -/
theorem C8_duplicate_id_accepted :
    (loadFromJson emptyEngine descDup).2 = none
    ∧ (loadFromJson emptyEngine descDup).1.nodes.map Node.id = ["a", "a"]
    ∧ (loadFromJson emptyEngine descDup).1.portDescs.map PortDesc.handle = [0, 1]
    ∧ getPortHandle (loadFromJson emptyEngine descDup).1 "a" "out1" "output" = some 1 := by
  refine ⟨by decide, by decide, by decide, by decide⟩

/-- C5.  For a Timer node with a positive `interval_ms` and at least one
declared output: `tick(dt)` with `dt ≤ 0` changes nothing; with `dt > 0`
the node's accumulator gains `dt` and the interval is subtracted exactly
once when reached; and the loop body writes the pulse (one when the
interval was reached, else zero), coerced to the first output's declared
type, into the arena slot and the cached first output. -/
theorem C5_timer_tick_behavior :
    (∀ (e : Engine) (dt : Rat), dt ≤ 0 → tick e dt = e) ∧
    (∀ (e : Engine) (dt : Rat) (i : Nat), 0 < dt →
      (e.nodes.getD i dummyNode).type = "Timer" →
      (e.nodes.getD i dummyNode).outputs ≠ [] →
      0 < timerInterval (e.nodes.getD i dummyNode) →
      i < e.nodes.length → i < e.timerAccumMs.length →
      (tick e dt).timerAccumMs.getD i 0 =
        if timerInterval (e.nodes.getD i dummyNode) ≤ e.timerAccumMs.getD i 0 + dt then
          e.timerAccumMs.getD i 0 + dt - timerInterval (e.nodes.getD i dummyNode)
        else e.timerAccumMs.getD i 0 + dt) ∧
    (∀ (dt : Rat) (e : Engine) (i h : Nat),
      (e.nodes.getD i dummyNode).type = "Timer" →
      (e.nodes.getD i dummyNode).outputs ≠ [] →
      0 < timerInterval (e.nodes.getD i dummyNode) →
      i < e.nodes.length →
      getPortHandle e (e.nodes.getD i dummyNode).id
        ((e.nodes.getD i dummyNode).outputs.headD
          { id := "", dataType := "float", value := .f 0 }).id "output" = some h →
      h < e.portValues.length →
      h ∉ e.outToIn.getD h [] →
      (tickNode dt e i).portValues.getD h (.i 0) =
        coerceNum ((e.nodes.getD i dummyNode).outputs.headD
            { id := "", dataType := "float", value := .f 0 }).dataType
          (if timerInterval (e.nodes.getD i dummyNode) ≤ e.timerAccumMs.getD i 0 + dt then 1 else 0) ∧
      (((tickNode dt e i).nodes.getD i dummyNode).outputs.headD
          { id := "", dataType := "float", value := .f 0 }).value =
        coerceNum ((e.nodes.getD i dummyNode).outputs.headD
            { id := "", dataType := "float", value := .f 0 }).dataType
          (if timerInterval (e.nodes.getD i dummyNode) ≤ e.timerAccumMs.getD i 0 + dt then 1 else 0)) := by
  refine ⟨?_, ?_, ?_⟩
  · intro e dt hdt
    unfold tick
    exact if_pos hdt
  · intro e dt i hdt hT hO hI hiN hLen
    unfold tick
    rw [if_neg (not_le.mpr hdt)]
    obtain ⟨l2, hsplit, hnm2⟩ := range_split e.nodes.length i hiN
    rw [hsplit, List.foldl_append, List.foldl_cons]
    have hnmp : i ∉ List.range i := by simp
    obtain ⟨hpa, hpn, hpl⟩ := tickFold_other dt (List.range i) e i hnmp
    obtain ⟨hsa, hsn, hsl⟩ :=
      tickFold_other dt l2 (tickNode dt ((List.range i).foldl (tickNode dt) e) i) i hnm2
    rw [hsa]
    have hacc := tickNode_acc_self dt ((List.range i).foldl (tickNode dt) e) i
      (by rw [hpn]; exact hT) (by rw [hpn]; exact hO) (by rw [hpn]; exact hI)
      (by rw [hpl]; exact hLen)
    rw [hacc, hpn, hpa]
  · intro dt e i h hT hO hI hiN hget hv hnm
    exact tickNode_port_write dt e i h hT hO hI hiN hget hv hnm

/-- C5 witness: on the loaded single-Timer graph (interval 100 ms),
`tick(0)` is a no-op, `tick(150)` leaves the accumulator at 50, and the
loop body writes the pulse one into port slot 0. -/
theorem C5_witness :
    tick engTimer1 0 = engTimer1 ∧
    (tick engTimer1 150).timerAccumMs.getD 0 0 = 50 ∧
    (tickNode 150 engTimer1 0).portValues.getD 0 (.i 0) = Val.f 1 := by
  obtain ⟨h1, h2, h3⟩ := C5_timer_tick_behavior
  refine ⟨h1 engTimer1 0 (by decide), ?_, ?_⟩
  · rw [h2 engTimer1 150 0 (by decide) (by decide) (by decide) (by decide)
        (by decide) (by decide)]
    decide
  · rw [(h3 150 engTimer1 0 0 (by decide) (by decide) (by decide) (by decide)
        (by decide) (by decide) (by decide)).1]
    decide


/-- C6.  An input is high iff strictly above one half; the Counter step
increments the running total by one exactly when the sampled input is high
and the stored previous sample was low, and stores the new sample; `tick`
never touches the Counter side tables, so intermediate ticks cannot change
the total; folding the step from the zeroed state over any observed input
sequence yields exactly its number of rising edges; and the Counter branch
of evaluation applies the step at the node's index and rewrites every
cached output to the coerced running total. -/
theorem C6_counter_rising_edges :
    (∀ dv : Rat, counterHigh dv = true ↔ 1 / 2 < dv) ∧
    (∀ (t l : Int) (c : Rat),
      counterStep t l c = (t, if t = 1 ∧ l = 0 then c + 1 else c)) ∧
    (∀ (e : Engine) (dt : Rat),
      (tick e dt).counterLastTick = e.counterLastTick ∧
      (tick e dt).counterValue = e.counterValue) ∧
    (∀ l : List Rat, (countRun l).2 = (risingEdges false l : Nat)) ∧
    (∀ (e : Engine) (n : Node) (idx : Nat),
      n.type = "Counter" →
      e.nodes.find? (fun x => x.id == n.id) = some n →
      lookupA e.nodeIndex n.id = some idx →
      (evalNodeKind e n).1.counterLastTick = e.counterLastTick.set idx (counterTickNow e n) ∧
      (evalNodeKind e n).1.counterValue =
        e.counterValue.set idx
          (counterStep (counterTickNow e n) (e.counterLastTick.getD idx 0)
            (e.counterValue.getD idx 0)).2 ∧
      (evalNodeKind e n).2.outputs = n.outputs.map (fun op =>
        { op with value := (coerceNum op.dataType
            (counterStep (counterTickNow e n) (e.counterLastTick.getD idx 0)
              (e.counterValue.getD idx 0)).2) })) := by
  refine ⟨?_, ?_, ?_, ?_, ?_⟩
  · intro dv
    simp [counterHigh]
  · intro t l c
    unfold counterStep
    by_cases h1 : t = 1 <;> by_cases h2 : l = 0 <;> simp [h1, h2]
  · intro e dt
    unfold tick
    split
    · exact ⟨rfl, rfl⟩
    · refine foldl_inv
        (P := fun x => x.counterLastTick = e.counterLastTick ∧ x.counterValue = e.counterValue)
        ?_ _ e ⟨rfl, rfl⟩
      intro x i hp
      obtain ⟨ta, ns, pv, st, ocs, q, rs, hEq, _, _, _⟩ := tickNode_spec dt x i
      rw [hEq]
      exact hp
  · intro l
    exact (countRun_go l 0 0 (Or.inl rfl)).trans (by simp)
  · intro e n idx hT hfind hidx
    exact evalNodeKind_counter e n idx hT hfind hidx

/-- C6 witness: the high threshold at three quarters, the edge count of a
concrete low-high-low-high trace, tick-invariance of the Counter tables on
the Timer-to-Counter graph, and the evaluation glue at its Counter node. -/
theorem C6_witness :
    counterHigh (3 / 4) = true ∧
    (countRun [0, 1, 0, 1, 0]).2 = 2 ∧
    (tick engTimerCounter 50).counterValue = engTimerCounter.counterValue ∧
    (evalNodeKind engTimerCounter (engTimerCounter.nodes.getD 1 dummyNode)).1.counterValue =
      engTimerCounter.counterValue.set 1
        (counterStep
          (counterTickNow engTimerCounter (engTimerCounter.nodes.getD 1 dummyNode))
          (engTimerCounter.counterLastTick.getD 1 0)
          (engTimerCounter.counterValue.getD 1 0)).2 := by
  obtain ⟨h1, h2, h3, h4, h5⟩ := C6_counter_rising_edges
  refine ⟨(h1 (3 / 4)).mpr (by norm_num), ?_, (h3 engTimerCounter 50).2, ?_⟩
  · rw [h4 [0, 1, 0, 1, 0]]
    decide
  · exact (h5 engTimerCounter (engTimerCounter.nodes.getD 1 dummyNode) 1
      (by decide) (by decide) (by decide)).2.1

/-- C7.  The delta walk returns exactly the outputs whose port stamp
exceeds the watermark: a triple is a member iff an output descriptor with
its (node, port) key has an in-range stamp strictly above the watermark and
the triple carries that node output's current cached value (so input ports
never appear); and when the descriptor keys are distinct — as the load path
makes them — each port appears at most once. -/
theorem C7_delta_exactness :
    (∀ (e : Engine) (w : Nat) (nid pid : String) (v : Val),
      (nid, pid, v) ∈ getPortDeltasChangedSince e w ↔
        ((∃ pd ∈ e.portDescs, pd.nodeId = nid ∧ pd.portId = pid ∧ pd.direction = "output" ∧
            pd.handle < e.portChangedStamp.length ∧
            e.portChangedStamp.getD pd.handle 0 > w) ∧
          currentOutVal e nid pid = some v)) ∧
    (∀ (e : Engine) (w : Nat),
      (e.portDescs.map (fun pd => (pd.nodeId, pd.portId))).Nodup →
      ((getPortDeltasChangedSince e w).map (fun t => (t.1, t.2.1))).Nodup) := by
  refine ⟨fun e w nid pid v => mem_getPortDeltas_iff e w nid pid v, ?_⟩
  intro e w hnd
  exact filterMap_key_nodup (deltaEntry e w) (fun t => (t.1, t.2.1))
    (fun pd => (pd.nodeId, pd.portId)) (deltaEntry_key e w) e.portDescs hnd

/-- C7 witness: on the evaluated Add graph with watermark zero, the summing
node's output appears in the delta with its cached value, and the delta's
(node, port) keys are distinct. -/
theorem C7_witness :
    ("sum", "out1", Val.f 0) ∈ getPortDeltasChangedSince (execute engAdd3) 0 ∧
    ((getPortDeltasChangedSince (execute engAdd3) 0).map (fun t => (t.1, t.2.1))).Nodup := by
  obtain ⟨h1, h2⟩ := C7_delta_exactness
  exact ⟨(h1 (execute engAdd3) 0 "sum" "out1" (.f 0)).mpr (by decide),
    h2 (execute engAdd3) 0 (by decide)⟩

/-- C9.  Handle assignment is a deterministic function of the declared
ordering: every load yields the spec-ordered descriptor table (node load
order, each node's declared inputs before its declared outputs, numbered
contiguously from zero), so two loads of the same description agree on the
descriptors and on every (node, port, direction) handle lookup, and the
assigned handles are exactly the contiguous range. -/
theorem C9_handle_assignment :
    (∀ (e : Engine) (d : Description),
      (loadFromJson e d).1.portDescs = specHandleAssignment d) ∧
    (∀ (e1 e2 : Engine) (d : Description) (nid pid dir : String),
      (loadFromJson e1 d).1.portDescs = (loadFromJson e2 d).1.portDescs ∧
      getPortHandle (loadFromJson e1 d).1 nid pid dir =
        getPortHandle (loadFromJson e2 d).1 nid pid dir) ∧
    (∀ d : Description,
      (specHandleAssignment d).map PortDesc.handle =
        List.range (specHandleAssignment d).length) := by
  refine ⟨?_, ?_, ?_⟩
  · intro e d
    exact (loadFromJson_tables e d).1
  · intro e1 e2 d nid pid dir
    refine ⟨(loadFromJson_tables e1 d).1.trans (loadFromJson_tables e2 d).1.symm, ?_⟩
    rw [getPortHandle, getPortHandle, (loadFromJson_tables e1 d).2,
        (loadFromJson_tables e2 d).2]
  · intro d
    rw [List.range_eq_range']
    exact specHandleAssignmentFrom_map_handle d.nodes 0

/-- C10.  `setNodeValue` stores the f32 value everywhere, regardless of
declared port types: the target node's stored copy gains a `value`
parameter holding the float and every cached output becomes the float
variant; every arena slot either keeps its value or holds the float; the
arena slot of each of the node's outputs holds the float; and so does every
downstream input slot those outputs feed. -/
theorem C10_set_input_f32 :
    ∀ (e : Engine) (nodeId : String) (v : Rat) (n : Node),
      e.nodes.find? (fun x => x.id == nodeId) = some n →
      (setNodeValue e nodeId v).nodes = updateFirstNode e.nodes nodeId
        { n with
            params := ("value", Val.f v) :: n.params
            outputs := n.outputs.map (fun op => { op with value := Val.f v }) } ∧
      (∀ h0 : Nat, (setNodeValue e nodeId v).portValues.getD h0 (.i 0) =
          e.portValues.getD h0 (.i 0) ∨
        (setNodeValue e nodeId v).portValues.getD h0 (.i 0) = Val.f v) ∧
      (∀ (op : Port) (h : Nat), op ∈ n.outputs →
        getPortHandle e nodeId op.id "output" = some h →
        h < e.portValues.length →
        (setNodeValue e nodeId v).portValues.getD h (.i 0) = Val.f v) ∧
      (∀ (op : Port) (h hIn : Nat), op ∈ n.outputs →
        getPortHandle e nodeId op.id "output" = some h →
        h < e.portValues.length →
        hIn ∈ e.outToIn.getD h [] →
        hIn < e.portValues.length →
        (setNodeValue e nodeId v).portValues.getD hIn (.i 0) = Val.f v) := by
  intro e nodeId v n hfind
  unfold setNodeValue
  rw [hfind]
  dsimp only
  split
  · refine ⟨?_, ?_, ?_, ?_⟩
    · rw [enqueueDependents_nodes]
      exact ((stampPort_fold_frame _ _ _).2.trans (setPortTo_fold_inv _ _ _ _).1)
    · intro h0
      rw [enqueueDependents_portValues, (stampPort_fold_frame _ _ _).1]
      exact (setPortTo_fold_inv _ _ _ _).2.2.2.2 h0
    · intro op h hop hget hlen
      rw [enqueueDependents_portValues, (stampPort_fold_frame _ _ _).1]
      exact setPortTo_fold_write nodeId v _ _ { op with value := Val.f v } h
        (List.mem_map_of_mem _ hop) hget hlen
    · intro op h hIn hop hget hlen hmem hlen2
      rw [enqueueDependents_portValues, (stampPort_fold_frame _ _ _).1]
      exact setPortTo_fold_down nodeId v _ _ { op with value := Val.f v } h hIn
        (List.mem_map_of_mem _ hop) hget hlen hmem hlen2
  · refine ⟨?_, ?_, ?_, ?_⟩
    · exact (setPortTo_fold_inv _ _ _ _).1
    · intro h0
      exact (setPortTo_fold_inv _ _ _ _).2.2.2.2 h0
    · intro op h hop hget hlen
      exact setPortTo_fold_write nodeId v _ _ { op with value := Val.f v } h
        (List.mem_map_of_mem _ hop) hget hlen
    · intro op h hIn hop hget hlen hmem hlen2
      exact setPortTo_fold_down nodeId v _ _ { op with value := Val.f v } h hIn
        (List.mem_map_of_mem _ hop) hget hlen hmem hlen2

/-- C10 witness: on the loaded Add graph, `setNodeValue("a", 5)` puts the
float five into node a's output slot (handle 0) and into the downstream
input slot it feeds (handle 3), and rewrites the stored node. -/
theorem C10_witness :
    (setNodeValue engAdd3 "a" 5).portValues.getD 0 (.i 0) = Val.f 5 ∧
    (setNodeValue engAdd3 "a" 5).portValues.getD 3 (.i 0) = Val.f 5 ∧
    (setNodeValue engAdd3 "a" 5).nodes = updateFirstNode engAdd3.nodes "a"
      { nodeA with
          params := ("value", Val.f 5) :: nodeA.params
          outputs := nodeA.outputs.map (fun op => { op with value := Val.f 5 }) } := by
  obtain ⟨h1, h2, h3, h4⟩ := C10_set_input_f32 engAdd3 "a" 5 nodeA (by decide)
  refine ⟨?_, ?_, h1⟩
  · exact h3 { id := "out1", dataType := "float", value := .f 0 } 0
      (by decide) (by decide) (by decide)
  · exact h4 { id := "out1", dataType := "float", value := .f 0 } 0 3
      (by decide) (by decide) (by decide) (by decide) (by decide)

end NodeFlow
